import Mathlib

set_option maxHeartbeats 1000000

/-
Verification of the utxodb UTXO reservation engine.

The Go package utxodb keeps, in memory, which confirmed UTXOs are currently
held by reservations.  The embedding below translates the package directly:

data model (types.go side of the package):
  Outpoint, UTXO, Change, Source, Reservation, the ErrInsufficient /
  ErrReserved error values (plus the not-found errors used by
  findSpecificUTXO and Cancel);

reserver (reserver.go side of the package):
  MemoryReserver with its reservations registry, per-account
  accountReserver held maps, the atomic reservation-id counter and the
  idempotency group; accountReserver.reserve / reserveUTXO / cancel;
  MemoryReserver.Reserve / reserve / ReserveUTXO / Cancel /
  ExpireReservations / findMatchingUTXOs / findSpecificUTXO / account.

Modelling conventions: Go maps become association lists whose write
operations first erase the key (so lookup behaves exactly like a Go map
read); the relational store behind findMatchingUTXOs and findSpecificUTXO
(the account_utxos table) becomes an explicit list of rows passed to the
functions that query it; byte strings and hashes become naturals;
time.Time timestamps become naturals; uint64 amounts become naturals and
the int32 reservation counter becomes a natural (the source documents
counter wraparound as an accepted, unguarded limitation, and no claim
below concerns it).  Mutexes guard each map in the source and no two are
ever held at once; operations are therefore modelled as atomic state
transformers.
-/

namespace Utxodb

/-- Association-list read, behaving like a Go map read: the value stored
under the key, if any. -/
def alookup {α β : Type} [DecidableEq α] : List (α × β) → α → Option β
  | [], _ => none
  | p :: ps, k => if p.1 = k then some p.2 else alookup ps k

/-- Association-list delete, behaving like Go delete(m, k). -/
def aerase {α β : Type} [DecidableEq α] (m : List (α × β)) (k : α) : List (α × β) :=
  m.filter (fun p => decide (p.1 ≠ k))

/-- Association-list write, behaving like Go m[k] = v. -/
def ainsert {α β : Type} [DecidableEq α] (m : List (α × β)) (k : α) (v : β) :
    List (α × β) :=
  (k, v) :: aerase m k

/-- The keys of the association list are pairwise distinct (true of every
list built with ainsert and aerase, as a Go map it models). -/
def keysNodup {α β : Type} [DecidableEq α] (m : List (α × β)) : Prop :=
  (m.map Prod.fst).Nodup

instance {α β : Type} [DecidableEq α] (m : List (α × β)) : Decidable (keysNodup m) :=
  List.nodupDecidable (m.map Prod.fst)

/-- bc.Outpoint: a UTXO is identified by (transaction hash, output index). -/
structure Outpoint where
  hash : Nat
  index : Nat
deriving DecidableEq, Repr

/-- UTXO from the package: outpoint, asset amount, control program, owning
account and control-program derivation index. -/
structure UTXO where
  outpoint : Outpoint
  assetID : Nat
  amount : Nat
  script : List Nat
  accountID : String
  controlProgramIndex : Nat
deriving DecidableEq, Repr

/-- Source: a reservation request for an (asset, account) pair. -/
structure Source where
  assetID : Nat
  accountID : String
  txHash : Option Nat
  outputIndex : Option Nat
  amount : Nat
  clientToken : Option String
deriving DecidableEq, Repr

/-- Change: units reserved beyond what was asked for, attributed back to
the originating Source. -/
structure Change where
  source : Source
  amount : Nat
deriving DecidableEq, Repr

/-- Reservation: result of a successful reserve call. -/
structure Reservation where
  id : Nat
  accountID : String
  utxos : List UTXO
  change : List Change
  expiry : Nat
  clientToken : Option String
deriving DecidableEq, Repr

/-- The error values the reserver returns: ErrInsufficient, ErrReserved,
and the not-found errors (pg.ErrUserInputNotFound from findSpecificUTXO,
and the could-not-find-reservation error from Cancel). -/
inductive RErr where
  | insufficient
  | reserved
  | notFound
deriving DecidableEq, Repr

/-- Outcome of Reserve / ReserveUTXO: a reservation or an error. -/
inductive ReserveResult where
  | ok (res : Reservation)
  | err (e : RErr)
deriving DecidableEq, Repr

/-- Modelled from the spec: the state of the idempotency.Group used by
MemoryReserver (package chain/sync/idempotency, which is not under src/).
Spec section 4.3: the group maps a client-supplied token to the outcome of
the first call made with that token; later calls with the same token
receive that cached outcome instead of performing a new attempt, and
Forget removes the entry so the token becomes reusable.  The concurrent
blocking of duplicate in-flight calls is flattened: calls are modelled as
executing atomically, one after another. -/
abbrev IdempotencyGroup := List (String × ReserveResult)

/-- Modelled from the spec: idempotency.Group.Forget removes the cached
outcome stored under the token. -/
def IdempotencyGroup.forget (g : IdempotencyGroup) (tok : String) : IdempotencyGroup :=
  aerase g tok

/-- accountReserver: per-account map from held outpoint to the id of the
reservation holding it. -/
structure AccountReserver where
  reserved : List (Outpoint × Nat)
deriving DecidableEq, Repr

/-- One row of the account_utxos table, the persistent source of truth of
confirmed UTXOs that findMatchingUTXOs and findSpecificUTXO query. -/
structure DBRow where
  txHash : Nat
  index : Nat
  accountID : String
  assetID : Nat
  amount : Nat
  controlProgramIndex : Nat
  script : List Nat
deriving DecidableEq, Repr

/-- MemoryReserver: reservation-id counter, idempotency group, the
reservation registry and the per-account reservers. -/
structure MemoryReserver where
  nextReservationID : Nat
  idempotency : IdempotencyGroup
  reservations : List (Nat × Reservation)
  accounts : List (String × AccountReserver)
deriving DecidableEq, Repr

/-- NewMemoryReserver: empty registry, empty accounts map, counter at 0. -/
def NewMemoryReserver : MemoryReserver :=
  { nextReservationID := 0, idempotency := [], reservations := [], accounts := [] }

/-- The outpoints of a list of UTXOs. -/
def outpoints (us : List UTXO) : List Outpoint :=
  us.map UTXO.outpoint

/-- Sum of the amounts of a list of UTXOs. -/
def sumAmounts (us : List UTXO) : Nat :=
  (us.map UTXO.amount).sum

/-- The UTXO built by findMatchingUTXOs from a row returned by its query:
asset and account are filled in from the source, the rest from the row. -/
def rowToUTXO (source : Source) (r : DBRow) : UTXO :=
  { outpoint := { hash := r.txHash, index := r.index },
    assetID := source.assetID,
    amount := r.amount,
    script := r.script,
    accountID := source.accountID,
    controlProgramIndex := r.controlProgramIndex }

/-- Insertion into a list sorted by ascending amount. -/
def insertByAmount (u : UTXO) : List UTXO → List UTXO
  | [] => [u]
  | v :: vs => if u.amount ≤ v.amount then u :: v :: vs else v :: insertByAmount u vs

/-- Sorting by ascending amount: the ORDER BY amount ASC of the query in
findMatchingUTXOs. -/
def sortByAmount : List UTXO → List UTXO
  | [] => []
  | u :: us => insertByAmount u (sortByAmount us)

/-- MemoryReserver.findMatchingUTXOs: all rows of account_utxos for the
(account, asset) pair of the source, ordered by ascending amount, turned
into UTXOs. -/
def findMatchingUTXOs (db : List DBRow) (source : Source) : List UTXO :=
  sortByAmount
    ((db.filter (fun r =>
        decide (r.accountID = source.accountID ∧ r.assetID = source.assetID))).map
      (rowToUTXO source))

/-- MemoryReserver.findSpecificUTXO: the row of account_utxos at the given
(tx hash, index), or the not-found outcome modelled as none. -/
def findSpecificUTXO (db : List DBRow) (txHash : Nat) (pos : Nat) : Option UTXO :=
  (db.find? (fun r => decide (r.txHash = txHash ∧ r.index = pos))).map (fun r =>
    { outpoint := { hash := txHash, index := pos },
      assetID := r.assetID,
      amount := r.amount,
      script := r.script,
      accountID := r.accountID,
      controlProgramIndex := r.controlProgramIndex })

/-- MemoryReserver.account: the reserver of the account, created (empty)
and recorded on first access. -/
def MemoryReserver.account (mr : MemoryReserver) (accID : String) :
    AccountReserver × MemoryReserver :=
  match alookup mr.accounts accID with
  | some ar => (ar, mr)
  | none =>
    (AccountReserver.mk [], { mr with accounts := ainsert mr.accounts accID (AccountReserver.mk []) })

/-- Whether the outpoint is in the held map of the account reserver. -/
def AccountReserver.isReserved (ar : AccountReserver) (op : Outpoint) : Bool :=
  (alookup ar.reserved op).isSome

/-- Write each selected outpoint into the held map under the reservation
id: the commit loop at the end of accountReserver.reserve. -/
def commitOutpoints (m : List (Outpoint × Nat)) (us : List UTXO) (rid : Nat) :
    List (Outpoint × Nat) :=
  us.foldl (fun m u => ainsert m u.outpoint rid) m

/-- Delete each outpoint of the list from the held map: the loop of
accountReserver.cancel. -/
def eraseOutpoints (m : List (Outpoint × Nat)) (us : List UTXO) :
    List (Outpoint × Nat) :=
  us.foldl (fun m u => aerase m u.outpoint) m

/-- The selection loop of accountReserver.reserve.  Walks the candidates
in order; a candidate already in the held map is skipped and its amount
added to the unavailable counter; otherwise its amount is added to the
reserved counter and the candidate appended to the result, and the walk
stops as soon as the reserved counter reaches the target.  Returns
(reserved, unavailable, selected). -/
def selectLoop (ar : AccountReserver) (target : Nat) :
    List UTXO → Nat → Nat → Nat × Nat × List UTXO
  | [], res, unav => (res, unav, [])
  | u :: us, res, unav =>
    if ar.isReserved u.outpoint then
      selectLoop ar target us res (unav + u.amount)
    else if target ≤ res + u.amount then
      (res + u.amount, unav, [u])
    else
      let rest := selectLoop ar target us (res + u.amount) unav
      (rest.1, rest.2.1, u :: rest.2.2)

/-- accountReserver.reserve: run the selection loop, classify failure as
ErrInsufficient (even everything available would not be enough) or
ErrReserved (enough exists but too much is held), otherwise commit the
selected outpoints under the reservation id and return them with the
reserved total. -/
def AccountReserver.reserve (ar : AccountReserver) (rid : Nat) (src : Source)
    (utxos : List UTXO) : RErr ⊕ (List UTXO × Nat × AccountReserver) :=
  let out := selectLoop ar src.amount utxos 0 0
  if out.1 + out.2.1 < src.amount then Sum.inl RErr.insufficient
  else if out.1 < src.amount then Sum.inl RErr.reserved
  else Sum.inr (out.2.2, out.1, AccountReserver.mk (commitOutpoints ar.reserved out.2.2 rid))

/-- accountReserver.reserveUTXO: check-and-set of a single outpoint,
failing with ErrReserved when it is already held. -/
def AccountReserver.reserveUTXO (ar : AccountReserver) (rid : Nat) (utxo : UTXO) :
    RErr ⊕ AccountReserver :=
  if ar.isReserved utxo.outpoint then Sum.inl RErr.reserved
  else Sum.inr (AccountReserver.mk (ainsert ar.reserved utxo.outpoint rid))

/-- accountReserver.cancel: delete every outpoint of the reservation from
the held map. -/
def AccountReserver.cancel (ar : AccountReserver) (res : Reservation) : AccountReserver :=
  AccountReserver.mk (eraseOutpoints ar.reserved res.utxos)

/-- The atomic.AddInt32 step drawing a fresh reservation id: the counter
is incremented and the new value is the id. -/
def MemoryReserver.bump (mr : MemoryReserver) : MemoryReserver :=
  { mr with nextReservationID := mr.nextReservationID + 1 }

/-- MemoryReserver.reserve (the attempt below the idempotency layer):
find the candidate UTXOs, draw a fresh reservation id from the counter,
try to reserve the amount against the account reserver, and on success
record the reservation in the registry, with a change entry when the
reserved total exceeds the requested amount. -/
def MemoryReserver.reserve (mr : MemoryReserver) (db : List DBRow) (source : Source)
    (exp : Nat) : ReserveResult × MemoryReserver :=
  let utxos := findMatchingUTXOs db source
  let mr1 := mr.bump
  let rid := mr1.nextReservationID
  let p := mr1.account source.accountID
  match p.1.reserve rid source utxos with
  | Sum.inl e => (ReserveResult.err e, p.2)
  | Sum.inr r =>
    let res : Reservation :=
      { id := rid,
        accountID := source.accountID,
        utxos := r.1,
        change :=
          if source.amount < r.2.1 then
            [{ source := source, amount := r.2.1 - source.amount }]
          else [],
        expiry := exp,
        clientToken := source.clientToken }
    (ReserveResult.ok res,
      { p.2 with
          reservations := ainsert p.2.reservations rid res,
          accounts := ainsert p.2.accounts source.accountID r.2.2 })

/-- MemoryReserver.Reserve: with no client token each call is an
independent attempt; with a token the call is routed through the
idempotency group (see IdempotencyGroup), so a cached outcome for the
token is returned as is, and otherwise the attempt runs once and its
outcome is cached under the token. -/
def MemoryReserver.Reserve (mr : MemoryReserver) (db : List DBRow) (source : Source)
    (exp : Nat) : ReserveResult × MemoryReserver :=
  match source.clientToken with
  | none => mr.reserve db source exp
  | some tok =>
    match alookup mr.idempotency tok with
    | some r => (r, mr)
    | none =>
      let p := mr.reserve db source exp
      (p.1, { p.2 with idempotency := ainsert p.2.idempotency tok p.1 })

/-- MemoryReserver.ReserveUTXO: look up the one specific UTXO (not-found
propagates), draw a fresh id, check-and-set its outpoint in its account
reserver, and on success record a single-UTXO reservation.  The client
token argument is never consulted and the recorded reservation carries no
client token. -/
def MemoryReserver.ReserveUTXO (mr : MemoryReserver) (db : List DBRow) (txHash : Nat)
    (pos : Nat) (clientToken : Option String) (exp : Nat) :
    ReserveResult × MemoryReserver :=
  match findSpecificUTXO db txHash pos with
  | none => (ReserveResult.err RErr.notFound, mr)
  | some utxo =>
    let mr1 := mr.bump
    let rid := mr1.nextReservationID
    let p := mr1.account utxo.accountID
    match p.1.reserveUTXO rid utxo with
    | Sum.inl e => (ReserveResult.err e, p.2)
    | Sum.inr ar2 =>
      let res : Reservation :=
        { id := rid,
          accountID := utxo.accountID,
          utxos := [utxo],
          change := [],
          expiry := exp,
          clientToken := none }
      (ReserveResult.ok res,
        { p.2 with
            reservations := ainsert p.2.reservations rid res,
            accounts := ainsert p.2.accounts utxo.accountID ar2 })

/-- Release the holds of a reservation and forget its client token: the
tail of Cancel after the registry removal, and the per-reservation body of
the release loop of ExpireReservations. -/
def MemoryReserver.releaseOne (mr : MemoryReserver) (res : Reservation) : MemoryReserver :=
  let p := mr.account res.accountID
  let mr2 : MemoryReserver :=
    { p.2 with accounts := ainsert p.2.accounts res.accountID (p.1.cancel res) }
  match res.clientToken with
  | none => mr2
  | some tok => { mr2 with idempotency := mr2.idempotency.forget tok }

/-- MemoryReserver.Cancel: best-effort cancel by reservation id.  Unknown
id: not-found error, state untouched.  Otherwise the reservation is
removed from the registry, its outpoints are released from its account
reserver, and its client token, if any, is forgotten. -/
def MemoryReserver.Cancel (mr : MemoryReserver) (rid : Nat) :
    Option RErr × MemoryReserver :=
  match alookup mr.reservations rid with
  | none => (some RErr.notFound, mr)
  | some res =>
    let mr1 : MemoryReserver := { mr with reservations := aerase mr.reservations rid }
    (none, mr1.releaseOne res)

/-- MemoryReserver.ExpireReservations: collect the reservations whose
expiry is strictly before now (the source tests res.Expiry.Before(now))
and drop them from the registry, release each collected reservation's
holds and token, then garbage-collect account reservers whose held map
became empty.  The now argument models the time.Now() call. -/
def MemoryReserver.ExpireReservations (mr : MemoryReserver) (now : Nat) : MemoryReserver :=
  let canceled :=
    (mr.reservations.filter (fun pr => decide (pr.2.expiry < now))).map Prod.snd
  let mr1 : MemoryReserver :=
    { mr with reservations := mr.reservations.filter (fun pr => decide (¬ pr.2.expiry < now)) }
  let mr2 := canceled.foldl MemoryReserver.releaseOne mr1
  { mr2 with accounts := mr2.accounts.filter (fun pa => decide (pa.2.reserved ≠ [])) }

/-- Which reservation id, if any, holds the outpoint in the account's held
map. -/
def MemoryReserver.heldBy (mr : MemoryReserver) (acc : String) (op : Outpoint) :
    Option Nat :=
  match alookup mr.accounts acc with
  | none => none
  | some ar => alookup ar.reserved op

/-- The account reserver as currently recorded, an empty one when the
account has none. -/
def MemoryReserver.accountView (mr : MemoryReserver) (acc : String) : AccountReserver :=
  (alookup mr.accounts acc).getD (AccountReserver.mk [])

/-- The candidates of the list that are already held in the account
reserver. -/
def heldCandidates (ar : AccountReserver) (us : List UTXO) : List UTXO :=
  us.filter (fun u => ar.isReserved u.outpoint)

/-- The candidates of the list that are not held in the account reserver. -/
def unheldCandidates (ar : AccountReserver) (us : List UTXO) : List UTXO :=
  us.filter (fun u => !ar.isReserved u.outpoint)

/-- One public operation of the reserver. -/
inductive Op where
  | reserveOp (source : Source) (exp : Nat)
  | reserveUTXOOp (txHash : Nat) (pos : Nat) (clientToken : Option String) (exp : Nat)
  | cancelOp (rid : Nat)
  | expireOp (now : Nat)
deriving DecidableEq, Repr

/-- Run one operation for its state effect. -/
def MemoryReserver.applyOp (db : List DBRow) (mr : MemoryReserver) : Op → MemoryReserver
  | Op.reserveOp src exp => (mr.Reserve db src exp).2
  | Op.reserveUTXOOp h p tok exp => (mr.ReserveUTXO db h p tok exp).2
  | Op.cancelOp rid => (mr.Cancel rid).2
  | Op.expireOp now => mr.ExpireReservations now

/-- Run a sequence of operations to completion from the fresh reserver. -/
def run (db : List DBRow) (ops : List Op) : MemoryReserver :=
  ops.foldl (MemoryReserver.applyOp db) NewMemoryReserver

/-- The store is well formed: an outpoint identifies at most one row of
account_utxos (its primary key). -/
def dbWellFormed (db : List DBRow) : Prop :=
  ∀ r1 ∈ db, ∀ r2 ∈ db, r1.txHash = r2.txHash → r1.index = r2.index → r1 = r2

instance (db : List DBRow) : Decidable (dbWellFormed db) := by
  unfold dbWellFormed; infer_instance

/-- The row records the outpoint as belonging to the account. -/
def rowMatches (op : Outpoint) (acc : String) (r : DBRow) : Prop :=
  r.txHash = op.hash ∧ r.index = op.index ∧ r.accountID = acc

instance (op : Outpoint) (acc : String) (r : DBRow) : Decidable (rowMatches op acc r) := by
  unfold rowMatches; infer_instance

/-- Helper decidability: an option is some value satisfying a predicate. -/
instance optSomeDec {α : Type} (o : Option α) (p : α → Prop) [DecidablePred p] :
    Decidable (∃ a, o = some a ∧ p a) :=
  match o with
  | none => isFalse (by simp)
  | some a =>
    if h : p a then isTrue ⟨a, rfl, h⟩
    else isFalse (by
      rintro ⟨b, hb, pb⟩
      cases hb
      exact h pb)

/-- The consistency invariant tying the registry, the per-account held
maps and the store together.  Every live state of the engine satisfies it:
keys of every map are distinct; every held entry points at a live registry
reservation of its own account that lists the outpoint; every live
reservation's outpoints are held in its account's map under its id; every
registry key is at most the counter; and every held outpoint is recorded
in the store under the account holding it. -/
def Inv (db : List DBRow) (mr : MemoryReserver) : Prop :=
  keysNodup mr.reservations ∧
  keysNodup mr.accounts ∧
  (∀ pa ∈ mr.accounts, keysNodup pa.2.reserved) ∧
  (∀ pa ∈ mr.accounts, ∀ pe ∈ pa.2.reserved,
    ∃ res, alookup mr.reservations pe.2 = some res ∧
      res.accountID = pa.1 ∧ pe.1 ∈ outpoints res.utxos) ∧
  (∀ pr ∈ mr.reservations, ∀ u ∈ pr.2.utxos,
    mr.heldBy pr.2.accountID u.outpoint = some pr.1) ∧
  (∀ pr ∈ mr.reservations, pr.1 ≤ mr.nextReservationID) ∧
  (∀ pa ∈ mr.accounts, ∀ pe ∈ pa.2.reserved, ∃ r ∈ db, rowMatches pe.1 pa.1 r)

instance (db : List DBRow) (mr : MemoryReserver) : Decidable (Inv db mr) := by
  unfold Inv; infer_instance

/-- A sample row of the store used by the concrete checks below. -/
def sampleRow (h : Nat) (amt : Nat) : DBRow :=
  { txHash := h, index := 0, accountID := "acct", assetID := 1, amount := amt,
    controlProgramIndex := 0, script := [] }

/-- A sample store: account acct owns UTXOs of amounts 100, 20 and 10 of
asset 1. -/
def sampleDB : List DBRow := [sampleRow 1 100, sampleRow 2 20, sampleRow 3 10]

/-- A token-free request for the given amount of asset 1 from acct. -/
def sampleSource (amt : Nat) : Source :=
  { assetID := 1, accountID := "acct", txHash := none, outputIndex := none,
    amount := amt, clientToken := none }

/-- The UTXO corresponding to sampleRow h amt. -/
def sampleUTXO (h : Nat) (amt : Nat) : UTXO :=
  { outpoint := { hash := h, index := 0 }, assetID := 1, amount := amt,
    script := [], accountID := "acct", controlProgramIndex := 0 }

/-- The reservation produced by reserving 25 against sampleDB from the
fresh reserver: the 10 and the 20 UTXO, and change 5. -/
def sampleRes25 : Reservation :=
  { id := 1, accountID := "acct", utxos := [sampleUTXO 3 10, sampleUTXO 2 20],
    change := [{ source := sampleSource 25, amount := 5 }], expiry := 9,
    clientToken := none }

/-- A reservation holding the 20 UTXO, expiring at time 50. -/
def sampleHeldRes : Reservation :=
  { id := 4, accountID := "acct", utxos := [sampleUTXO 2 20], change := [],
    expiry := 50, clientToken := none }

/-- A state in which sampleHeldRes holds the 20 UTXO. -/
def sampleMrHeld : MemoryReserver :=
  { nextReservationID := 4, idempotency := [],
    reservations := [(4, sampleHeldRes)],
    accounts := [("acct", AccountReserver.mk [(Outpoint.mk 2 0, 4)])] }

/-- The reservation produced by reserving 25 against sampleDB from
sampleMrHeld: the held 20 is skipped, so the 10 and the 100 are taken and
the change is 85. -/
def sampleRes25Skip : Reservation :=
  { id := 5, accountID := "acct", utxos := [sampleUTXO 3 10, sampleUTXO 1 100],
    change := [{ source := sampleSource 25, amount := 85 }], expiry := 9,
    clientToken := none }

/-- A reservation holding the 10 UTXO, expiring at time 10. -/
def sampleHeldRes2 : Reservation :=
  { id := 5, accountID := "acct", utxos := [sampleUTXO 3 10], change := [],
    expiry := 10, clientToken := none }

/-- A state with two live reservations: sampleHeldRes (expiry 50) on the 20
UTXO and sampleHeldRes2 (expiry 10) on the 10 UTXO. -/
def sampleMr2 : MemoryReserver :=
  { nextReservationID := 5, idempotency := [],
    reservations := [(4, sampleHeldRes), (5, sampleHeldRes2)],
    accounts :=
      [("acct",
        AccountReserver.mk [(Outpoint.mk 2 0, 4), (Outpoint.mk 3 0, 5)])] }

/-- The request sampleSource 25 carrying client token tk. -/
def sampleSourceTok : Source :=
  { assetID := 1, accountID := "acct", txHash := none, outputIndex := none,
    amount := 25, clientToken := some "tk" }

/-- The reservation produced for sampleSourceTok from the fresh reserver. -/
def sampleRes25Tok : Reservation :=
  { id := 1, accountID := "acct", utxos := [sampleUTXO 3 10, sampleUTXO 2 20],
    change := [{ source := sampleSourceTok, amount := 5 }], expiry := 9,
    clientToken := some "tk" }

/-
Association-list lemmas.
-/

theorem alookup_cons {α β : Type} [DecidableEq α] (p : α × β) (ps : List (α × β)) (k : α) :
    alookup (p :: ps) k = if p.1 = k then some p.2 else alookup ps k := rfl

theorem alookup_mem {α β : Type} [DecidableEq α] {m : List (α × β)} {k : α} {v : β}
    (h : alookup m k = some v) : (k, v) ∈ m := by
  induction m with
  | nil => simp [alookup] at h
  | cons p ps ih =>
    rw [alookup_cons] at h
    by_cases heq : p.1 = k
    · rw [if_pos heq] at h
      have hp : p = (k, v) := by
        cases p
        cases h
        cases heq
        rfl
      rw [hp]
      exact List.mem_cons_self _ _
    · rw [if_neg heq] at h
      exact List.mem_cons_of_mem _ (ih h)

theorem alookup_eq_none {α β : Type} [DecidableEq α] {m : List (α × β)} {k : α} :
    alookup m k = none ↔ ∀ p ∈ m, p.1 ≠ k := by
  induction m with
  | nil => simp [alookup]
  | cons p ps ih =>
    rw [alookup_cons]
    by_cases heq : p.1 = k
    · simp [heq]
    · simp [heq, ih]

theorem alookup_of_mem_nodup {α β : Type} [DecidableEq α] {m : List (α × β)} {k : α} {v : β}
    (hn : keysNodup m) (h : (k, v) ∈ m) : alookup m k = some v := by
  induction m with
  | nil => simp at h
  | cons p ps ih =>
    rw [keysNodup, List.map_cons, List.nodup_cons] at hn
    rcases List.mem_cons.mp h with h | h
    · rw [← h, alookup_cons, if_pos rfl]
    · rw [alookup_cons]
      by_cases heq : p.1 = k
      · exact absurd (List.mem_map.mpr ⟨(k, v), h, heq.symm⟩) hn.1
      · rw [if_neg heq]
        exact ih hn.2 h

theorem mem_aerase {α β : Type} [DecidableEq α] {m : List (α × β)} {k : α} {p : α × β} :
    p ∈ aerase m k ↔ p ∈ m ∧ p.1 ≠ k := by
  simp [aerase, List.mem_filter]

theorem aerase_cons {α β : Type} [DecidableEq α] (p : α × β) (ps : List (α × β)) (k : α) :
    aerase (p :: ps) k = if p.1 = k then aerase ps k else p :: aerase ps k := by
  by_cases h : p.1 = k <;> simp [aerase, List.filter_cons, h]

theorem alookup_aerase_self {α β : Type} [DecidableEq α] (m : List (α × β)) (k : α) :
    alookup (aerase m k) k = none := by
  rw [alookup_eq_none]
  intro p hp
  exact (mem_aerase.mp hp).2

theorem alookup_aerase_ne {α β : Type} [DecidableEq α] {m : List (α × β)} {k k' : α}
    (h : k' ≠ k) : alookup (aerase m k) k' = alookup m k' := by
  induction m with
  | nil => rfl
  | cons p ps ih =>
    rw [aerase_cons, alookup_cons]
    by_cases hpk : p.1 = k
    · rw [if_pos hpk, ih, if_neg (by rw [hpk]; exact fun e => h e.symm)]
    · rw [if_neg hpk, alookup_cons, ih]

theorem alookup_aerase_none {α β : Type} [DecidableEq α] {m : List (α × β)} {k k' : α}
    (h : alookup m k' = none) : alookup (aerase m k) k' = none := by
  by_cases hk : k' = k
  · rw [hk]; exact alookup_aerase_self m k
  · rw [alookup_aerase_ne hk]; exact h

theorem alookup_ainsert_self {α β : Type} [DecidableEq α] (m : List (α × β)) (k : α) (v : β) :
    alookup (ainsert m k v) k = some v := by
  rw [ainsert, alookup_cons, if_pos rfl]

theorem alookup_ainsert_ne {α β : Type} [DecidableEq α] {m : List (α × β)} {k k' : α} {v : β}
    (h : k' ≠ k) : alookup (ainsert m k v) k' = alookup m k' := by
  rw [ainsert, alookup_cons, if_neg (fun e => h e.symm)]
  exact alookup_aerase_ne h

theorem mem_ainsert {α β : Type} [DecidableEq α] {m : List (α × β)} {k : α} {v : β}
    {p : α × β} : p ∈ ainsert m k v ↔ p = (k, v) ∨ (p ∈ m ∧ p.1 ≠ k) := by
  simp [ainsert, mem_aerase]

theorem keysNodup_filter {α β : Type} [DecidableEq α] {m : List (α × β)}
    (f : α × β → Bool) (hn : keysNodup m) : keysNodup (m.filter f) :=
  List.Nodup.sublist (List.Sublist.map _ (List.filter_sublist _)) hn

theorem keysNodup_aerase {α β : Type} [DecidableEq α] {m : List (α × β)} {k : α}
    (hn : keysNodup m) : keysNodup (aerase m k) :=
  keysNodup_filter _ hn

theorem keysNodup_ainsert {α β : Type} [DecidableEq α] {m : List (α × β)} {k : α} {v : β}
    (hn : keysNodup m) : keysNodup (ainsert m k v) := by
  rw [keysNodup, ainsert, List.map_cons, List.nodup_cons]
  refine ⟨fun hmem => ?_, keysNodup_aerase hn⟩
  obtain ⟨p, hp, hpk⟩ := List.mem_map.mp hmem
  exact (mem_aerase.mp hp).2 hpk

theorem alookup_filter_none {α β : Type} [DecidableEq α] {m : List (α × β)} {k : α}
    (f : α × β → Bool) (h : alookup m k = none) : alookup (m.filter f) k = none := by
  rw [alookup_eq_none] at h ⊢
  intro p hp
  exact h p (List.mem_filter.mp hp).1

theorem alookup_filter_some {α β : Type} [DecidableEq α] {m : List (α × β)} {k : α} {v : β}
    (f : α × β → Bool) (hn : keysNodup m) (h : alookup m k = some v)
    (hf : f (k, v) = true) : alookup (m.filter f) k = some v :=
  alookup_of_mem_nodup (keysNodup_filter f hn)
    (List.mem_filter.mpr ⟨alookup_mem h, hf⟩)

theorem alookup_filter_some_rev {α β : Type} [DecidableEq α] {m : List (α × β)} {k : α}
    {v : β} {f : α × β → Bool} (hn : keysNodup m)
    (h : alookup (m.filter f) k = some v) : alookup m k = some v ∧ f (k, v) = true := by
  have hm := List.mem_filter.mp (alookup_mem h)
  exact ⟨alookup_of_mem_nodup hn hm.1, hm.2⟩

/-
Lemmas about the commit and release loops over held maps.
-/

theorem commitOutpoints_cons (m : List (Outpoint × Nat)) (u : UTXO) (us : List UTXO)
    (rid : Nat) :
    commitOutpoints m (u :: us) rid = commitOutpoints (ainsert m u.outpoint rid) us rid := rfl

theorem eraseOutpoints_cons (m : List (Outpoint × Nat)) (u : UTXO) (us : List UTXO) :
    eraseOutpoints m (u :: us) = eraseOutpoints (aerase m u.outpoint) us := rfl

theorem alookup_commitOutpoints_not_mem {m : List (Outpoint × Nat)} {us : List UTXO}
    {rid : Nat} {op : Outpoint} (h : op ∉ outpoints us) :
    alookup (commitOutpoints m us rid) op = alookup m op := by
  induction us generalizing m with
  | nil => rfl
  | cons u us ih =>
    rw [outpoints, List.map_cons, List.mem_cons] at h
    push_neg at h
    rw [commitOutpoints_cons, ih (by rw [outpoints]; exact h.2),
      alookup_ainsert_ne h.1]

theorem alookup_commitOutpoints_mem {m : List (Outpoint × Nat)} {us : List UTXO}
    {rid : Nat} {op : Outpoint} (h : op ∈ outpoints us) :
    alookup (commitOutpoints m us rid) op = some rid := by
  induction us generalizing m with
  | nil => simp [outpoints] at h
  | cons u us ih =>
    rw [commitOutpoints_cons]
    by_cases hmem : op ∈ outpoints us
    · exact ih hmem
    · rw [outpoints, List.map_cons, List.mem_cons] at h
      rcases h with h | h
    
      · rw [alookup_commitOutpoints_not_mem hmem, h, alookup_ainsert_self]
      · exact absurd (by rw [outpoints]; exact h) hmem

theorem mem_commitOutpoints {m : List (Outpoint × Nat)} {us : List UTXO} {rid : Nat}
    {p : Outpoint × Nat} (h : p ∈ commitOutpoints m us rid) :
    p ∈ m ∨ (p.1 ∈ outpoints us ∧ p.2 = rid) := by
  induction us generalizing m with
  | nil => exact Or.inl h
  | cons u us ih =>
    rw [commitOutpoints_cons] at h
    rcases ih h with h | h
    · rcases mem_ainsert.mp h with h | h
      · right
        rw [h]
        exact ⟨List.mem_cons_self _ _, rfl⟩
      · exact Or.inl h.1
    · right
      exact ⟨List.mem_cons_of_mem _ h.1, h.2⟩

theorem keysNodup_commitOutpoints {m : List (Outpoint × Nat)} {us : List UTXO}
    {rid : Nat} (hn : keysNodup m) : keysNodup (commitOutpoints m us rid) := by
  induction us generalizing m with
  | nil => exact hn
  | cons u us ih => exact ih (keysNodup_ainsert hn)

theorem alookup_eraseOutpoints_none {m : List (Outpoint × Nat)} {us : List UTXO}
    {op : Outpoint} (h : alookup m op = none) :
    alookup (eraseOutpoints m us) op = none := by
  induction us generalizing m with
  | nil => exact h
  | cons u us ih => exact ih (alookup_aerase_none h)

theorem alookup_eraseOutpoints_mem {m : List (Outpoint × Nat)} {us : List UTXO}
    {op : Outpoint} (h : op ∈ outpoints us) :
    alookup (eraseOutpoints m us) op = none := by
  induction us generalizing m with
  | nil => simp [outpoints] at h
  | cons u us ih =>
    rw [outpoints, List.map_cons, List.mem_cons] at h
    rw [eraseOutpoints_cons]
    by_cases hmem : op ∈ outpoints us
    · exact ih hmem
    · rcases h with h | h
      · apply alookup_eraseOutpoints_none
        rw [h]
        exact alookup_aerase_self _ _
      · exact absurd (by rw [outpoints]; exact h) hmem

theorem alookup_eraseOutpoints_not_mem {m : List (Outpoint × Nat)} {us : List UTXO}
    {op : Outpoint} (h : op ∉ outpoints us) :
    alookup (eraseOutpoints m us) op = alookup m op := by
  induction us generalizing m with
  | nil => rfl
  | cons u us ih =>
    rw [outpoints, List.map_cons, List.mem_cons] at h
    push_neg at h
    rw [eraseOutpoints_cons, ih (by rw [outpoints]; exact h.2),
      alookup_aerase_ne h.1]

theorem mem_eraseOutpoints {m : List (Outpoint × Nat)} {us : List UTXO}
    {p : Outpoint × Nat} (h : p ∈ eraseOutpoints m us) : p ∈ m := by
  induction us generalizing m with
  | nil => exact h
  | cons u us ih => exact (mem_aerase.mp (ih h)).1

theorem keysNodup_eraseOutpoints {m : List (Outpoint × Nat)} {us : List UTXO}
    (hn : keysNodup m) : keysNodup (eraseOutpoints m us) := by
  induction us generalizing m with
  | nil => exact hn
  | cons u us ih => exact ih (keysNodup_aerase hn)

/-
Lemmas about sorting and the candidate query.
-/

theorem mem_insertByAmount {u v : UTXO} {l : List UTXO} :
    v ∈ insertByAmount u l ↔ v = u ∨ v ∈ l := by
  induction l with
  | nil => simp [insertByAmount]
  | cons w ws ih =>
    rw [insertByAmount]
    by_cases h : u.amount ≤ w.amount
    · simp [h]
    · simp [h, ih]
      tauto

theorem mem_sortByAmount {v : UTXO} {l : List UTXO} :
    v ∈ sortByAmount l ↔ v ∈ l := by
  induction l with
  | nil => simp [sortByAmount]
  | cons u us ih =>
    rw [sortByAmount, mem_insertByAmount, ih]
    simp

theorem mem_findMatchingUTXOs {db : List DBRow} {source : Source} {u : UTXO}
    (h : u ∈ findMatchingUTXOs db source) :
    ∃ r ∈ db, r.accountID = source.accountID ∧ r.assetID = source.assetID ∧
      u = rowToUTXO source r := by
  rw [findMatchingUTXOs, mem_sortByAmount] at h
  obtain ⟨r, hr, hru⟩ := List.mem_map.mp h
  have hf := List.mem_filter.mp hr
  have hcond := of_decide_eq_true hf.2
  exact ⟨r, hf.1, hcond.1, hcond.2, hru.symm⟩

theorem findMatchingUTXOs_assetID {db : List DBRow} {source : Source} {u : UTXO}
    (h : u ∈ findMatchingUTXOs db source) : u.assetID = source.assetID := by
  obtain ⟨r, _, _, _, hu⟩ := mem_findMatchingUTXOs h
  rw [hu]
  rfl

theorem findMatchingUTXOs_row {db : List DBRow} {source : Source} {u : UTXO}
    (h : u ∈ findMatchingUTXOs db source) :
    ∃ r ∈ db, rowMatches u.outpoint source.accountID r := by
  obtain ⟨r, hr, hacc, _, hu⟩ := mem_findMatchingUTXOs h
  exact ⟨r, hr, by rw [hu]; exact ⟨rfl, rfl, hacc⟩⟩

/-
Lemmas about the selection loop of accountReserver.reserve.
-/

theorem sumAmounts_nil : sumAmounts [] = 0 := rfl

theorem sumAmounts_cons (u : UTXO) (us : List UTXO) :
    sumAmounts (u :: us) = u.amount + sumAmounts us := by
  rw [sumAmounts, sumAmounts, List.map_cons, List.sum_cons]

theorem selectLoop_nil (ar : AccountReserver) (t r0 u0 : Nat) :
    selectLoop ar t [] r0 u0 = (r0, u0, []) := rfl

theorem selectLoop_cons_held {ar : AccountReserver} {u : UTXO}
    (t : Nat) (us : List UTXO) (r0 u0 : Nat) (h : ar.isReserved u.outpoint = true) :
    selectLoop ar t (u :: us) r0 u0 = selectLoop ar t us r0 (u0 + u.amount) := by
  simp [selectLoop, h]

theorem selectLoop_cons_take {ar : AccountReserver} {u : UTXO} {t r0 : Nat}
    (us : List UTXO) (u0 : Nat) (h : ar.isReserved u.outpoint = false)
    (ht : t ≤ r0 + u.amount) :
    selectLoop ar t (u :: us) r0 u0 = (r0 + u.amount, u0, [u]) := by
  simp [selectLoop, h, ht]

theorem selectLoop_cons_cont {ar : AccountReserver} {u : UTXO} {t r0 : Nat}
    (us : List UTXO) (u0 : Nat) (h : ar.isReserved u.outpoint = false)
    (ht : ¬ t ≤ r0 + u.amount) :
    selectLoop ar t (u :: us) r0 u0 =
      ((selectLoop ar t us (r0 + u.amount) u0).1,
       (selectLoop ar t us (r0 + u.amount) u0).2.1,
       u :: (selectLoop ar t us (r0 + u.amount) u0).2.2) := by
  simp [selectLoop, h, ht]

theorem unheldCandidates_cons_held {ar : AccountReserver} {u : UTXO} (us : List UTXO)
    (h : ar.isReserved u.outpoint = true) :
    unheldCandidates ar (u :: us) = unheldCandidates ar us := by
  simp [unheldCandidates, List.filter_cons, h]

theorem unheldCandidates_cons_unheld {ar : AccountReserver} {u : UTXO} (us : List UTXO)
    (h : ar.isReserved u.outpoint = false) :
    unheldCandidates ar (u :: us) = u :: unheldCandidates ar us := by
  simp [unheldCandidates, List.filter_cons, h]

theorem heldCandidates_cons_held {ar : AccountReserver} {u : UTXO} (us : List UTXO)
    (h : ar.isReserved u.outpoint = true) :
    heldCandidates ar (u :: us) = u :: heldCandidates ar us := by
  simp [heldCandidates, List.filter_cons, h]

theorem heldCandidates_cons_unheld {ar : AccountReserver} {u : UTXO} (us : List UTXO)
    (h : ar.isReserved u.outpoint = false) :
    heldCandidates ar (u :: us) = heldCandidates ar us := by
  simp [heldCandidates, List.filter_cons, h]

theorem sumAmounts_split (ar : AccountReserver) (us : List UTXO) :
    sumAmounts (unheldCandidates ar us) + sumAmounts (heldCandidates ar us) =
      sumAmounts us := by
  induction us with
  | nil => rfl
  | cons u us ih =>
    rw [sumAmounts_cons, ← ih]
    rcases Bool.eq_false_or_eq_true (ar.isReserved u.outpoint) with h | h
    · rw [unheldCandidates_cons_held us h, heldCandidates_cons_held us h, sumAmounts_cons]
      omega
    · rw [unheldCandidates_cons_unheld us h, heldCandidates_cons_unheld us h, sumAmounts_cons]
      omega

theorem selectLoop_sel_mem {ar : AccountReserver} {t : Nat} {us : List UTXO}
    {r0 u0 : Nat} :
    ∀ u ∈ (selectLoop ar t us r0 u0).2.2,
      u ∈ us ∧ ar.isReserved u.outpoint = false := by
  induction us generalizing r0 u0 with
  | nil => simp [selectLoop_nil]
  | cons u us ih =>
    intro v hv
    rcases Bool.eq_false_or_eq_true (ar.isReserved u.outpoint) with h | h
    · rw [selectLoop_cons_held t us r0 u0 h] at hv
      obtain ⟨h1, h2⟩ := ih v hv
      exact ⟨List.mem_cons_of_mem _ h1, h2⟩
    · by_cases ht : t ≤ r0 + u.amount
      · rw [selectLoop_cons_take us u0 h ht] at hv
        simp at hv
        rw [hv]
        exact ⟨List.mem_cons_self _ _, h⟩
      · rw [selectLoop_cons_cont us u0 h ht] at hv
        rcases List.mem_cons.mp hv with hv | hv
        · rw [hv]
          exact ⟨List.mem_cons_self _ _, h⟩
        · obtain ⟨h1, h2⟩ := ih v hv
          exact ⟨List.mem_cons_of_mem _ h1, h2⟩

theorem selectLoop_fst_eq {ar : AccountReserver} {t : Nat} {us : List UTXO}
    {r0 u0 : Nat} :
    (selectLoop ar t us r0 u0).1 = r0 + sumAmounts (selectLoop ar t us r0 u0).2.2 := by
  induction us generalizing r0 u0 with
  | nil => simp [selectLoop_nil, sumAmounts_nil]
  | cons u us ih =>
    rcases Bool.eq_false_or_eq_true (ar.isReserved u.outpoint) with h | h
    · rw [selectLoop_cons_held t us r0 u0 h]
      exact ih
    · by_cases ht : t ≤ r0 + u.amount
      · rw [selectLoop_cons_take us u0 h ht]
        simp [sumAmounts_cons, sumAmounts_nil]
      · rw [selectLoop_cons_cont us u0 h ht]
        simp only [sumAmounts_cons]
        rw [ih]
        omega

theorem selectLoop_fst_le {ar : AccountReserver} {t : Nat} {us : List UTXO}
    {r0 u0 : Nat} :
    (selectLoop ar t us r0 u0).1 ≤ r0 + sumAmounts (unheldCandidates ar us) := by
  induction us generalizing r0 u0 with
  | nil => simp [selectLoop_nil]
  | cons u us ih =>
    rcases Bool.eq_false_or_eq_true (ar.isReserved u.outpoint) with h | h
    · rw [selectLoop_cons_held t us r0 u0 h, unheldCandidates_cons_held us h]
      exact ih
    · rw [unheldCandidates_cons_unheld us h, sumAmounts_cons]
      by_cases ht : t ≤ r0 + u.amount
      · rw [selectLoop_cons_take us u0 h ht]
        omega
      · rw [selectLoop_cons_cont us u0 h ht]
        have := @ih (r0 + u.amount) u0
        omega

theorem selectLoop_complete {ar : AccountReserver} {t : Nat} {us : List UTXO}
    {r0 u0 : Nat} (hlt : (selectLoop ar t us r0 u0).1 < t) :
    (selectLoop ar t us r0 u0).1 = r0 + sumAmounts (unheldCandidates ar us) ∧
    (selectLoop ar t us r0 u0).2.1 = u0 + sumAmounts (heldCandidates ar us) := by
  induction us generalizing r0 u0 with
  | nil => simp [selectLoop_nil, unheldCandidates, heldCandidates, sumAmounts]
  | cons u us ih =>
    rcases Bool.eq_false_or_eq_true (ar.isReserved u.outpoint) with h | h
    · rw [selectLoop_cons_held t us r0 u0 h] at hlt ⊢
      obtain ⟨h1, h2⟩ := ih hlt
      rw [unheldCandidates_cons_held us h, heldCandidates_cons_held us h, sumAmounts_cons]
      exact ⟨h1, by rw [h2]; omega⟩
    · by_cases ht : t ≤ r0 + u.amount
      · rw [selectLoop_cons_take us u0 h ht] at hlt
        omega
      · rw [selectLoop_cons_cont us u0 h ht] at hlt ⊢
        obtain ⟨h1, h2⟩ := ih hlt
        rw [unheldCandidates_cons_unheld us h, heldCandidates_cons_unheld us h,
          sumAmounts_cons]
        exact ⟨by rw [h1]; omega, h2⟩

/-
Outcome characterization of accountReserver.reserve and reserveUTXO.
-/

theorem reserve_cases (ar : AccountReserver) (rid : Nat) (src : Source)
    (utxos : List UTXO) :
    (ar.reserve rid src utxos = Sum.inl RErr.insufficient ↔
      sumAmounts utxos < src.amount) ∧
    (ar.reserve rid src utxos = Sum.inl RErr.reserved ↔
      src.amount ≤ sumAmounts utxos ∧
        sumAmounts (unheldCandidates ar utxos) < src.amount) ∧
    ((∃ r, ar.reserve rid src utxos = Sum.inr r) ↔
      src.amount ≤ sumAmounts (unheldCandidates ar utxos)) := by
  have hle : (selectLoop ar src.amount utxos 0 0).1 ≤
      sumAmounts (unheldCandidates ar utxos) := by
    have := @selectLoop_fst_le ar src.amount utxos 0 0
    omega
  have hsplit := sumAmounts_split ar utxos
  rw [AccountReserver.reserve]
  by_cases hfull : (selectLoop ar src.amount utxos 0 0).1 < src.amount
  · obtain ⟨h1, h2⟩ := selectLoop_complete hfull
    by_cases c1 : (selectLoop ar src.amount utxos 0 0).1 +
        (selectLoop ar src.amount utxos 0 0).2.1 < src.amount
    · rw [if_pos c1]
      refine ⟨by simp; omega, ?_, ?_⟩
      · simp only [Sum.inl.injEq]
        constructor
        · intro he
          exact absurd he (by simp)
        · intro he
          omega
      · simp only [iff_iff_implies_and_implies]
        constructor
        · rintro ⟨r, hr⟩
          exact absurd hr (by simp)
        · intro he
          omega
    · rw [if_neg c1, if_pos hfull]
      refine ⟨?_, ?_, ?_⟩
      · simp only [Sum.inl.injEq]
        constructor
        · intro he
          exact absurd he (by simp)
        · intro he
          omega
      · simp only [Sum.inl.injEq]
        constructor
        · intro _
          constructor <;> omega
        · intro _
          trivial
      · simp only [iff_iff_implies_and_implies]
        constructor
        · rintro ⟨r, hr⟩
          exact absurd hr (by simp)
        · intro he
          omega
  · have hc1 : ¬ ((selectLoop ar src.amount utxos 0 0).1 +
        (selectLoop ar src.amount utxos 0 0).2.1 < src.amount) := by omega
    rw [if_neg hc1, if_neg hfull]
    refine ⟨?_, ?_, ?_⟩
    · constructor
      · intro he
        exact absurd he (by simp)
      · intro he
        omega
    · constructor
      · intro he
        exact absurd he (by simp)
      · intro he
        omega
    · constructor
      · intro _
        omega
      · intro _
        exact ⟨_, rfl⟩

theorem reserve_inr_spec {ar : AccountReserver} {rid : Nat} {src : Source}
    {utxos sel : List UTXO} {total : Nat} {ar2 : AccountReserver}
    (h : ar.reserve rid src utxos = Sum.inr (sel, total, ar2)) :
    total = sumAmounts sel ∧ src.amount ≤ total ∧
    (∀ u ∈ sel, u ∈ utxos ∧ ar.isReserved u.outpoint = false) ∧
    ar2 = AccountReserver.mk (commitOutpoints ar.reserved sel rid) := by
  rw [AccountReserver.reserve] at h
  by_cases c1 : (selectLoop ar src.amount utxos 0 0).1 +
      (selectLoop ar src.amount utxos 0 0).2.1 < src.amount
  · rw [if_pos c1] at h
    exact absurd h (by simp)
  · rw [if_neg c1] at h
    by_cases c2 : (selectLoop ar src.amount utxos 0 0).1 < src.amount
    · rw [if_pos c2] at h
      exact absurd h (by simp)
    · rw [if_neg c2] at h
      simp only [Sum.inr.injEq, Prod.mk.injEq] at h
      obtain ⟨hsel, htot, har⟩ := h
      have hfst := @selectLoop_fst_eq ar src.amount utxos 0 0
      refine ⟨?_, ?_, ?_, ?_⟩
      · rw [← htot, ← hsel]
        omega
      · omega
      · intro u hu
        exact selectLoop_sel_mem u (by rw [hsel]; exact hu)
      · rw [← har, ← hsel]

theorem reserveUTXO_of_held {ar : AccountReserver} {rid : Nat} {utxo : UTXO}
    (h : ar.isReserved utxo.outpoint = true) :
    ar.reserveUTXO rid utxo = Sum.inl RErr.reserved := by
  simp [AccountReserver.reserveUTXO, h]

theorem reserveUTXO_of_free {ar : AccountReserver} {rid : Nat} {utxo : UTXO}
    (h : ar.isReserved utxo.outpoint = false) :
    ar.reserveUTXO rid utxo =
      Sum.inr (AccountReserver.mk (ainsert ar.reserved utxo.outpoint rid)) := by
  simp [AccountReserver.reserveUTXO, h]

/-
Structural lemmas about MemoryReserver.account and heldBy.
-/

theorem account_of_some {mr : MemoryReserver} {acc : String} {ar : AccountReserver}
    (h : alookup mr.accounts acc = some ar) : mr.account acc = (ar, mr) := by
  rw [MemoryReserver.account, h]

theorem account_of_none {mr : MemoryReserver} {acc : String}
    (h : alookup mr.accounts acc = none) :
    mr.account acc = (AccountReserver.mk [],
      { mr with accounts := ainsert mr.accounts acc (AccountReserver.mk []) }) := by
  rw [MemoryReserver.account, h]

theorem account_fst_lookup (mr : MemoryReserver) (acc : String) (op : Outpoint) :
    alookup ((mr.account acc).1).reserved op = mr.heldBy acc op := by
  rw [MemoryReserver.heldBy]
  cases h : alookup mr.accounts acc
  · rw [account_of_none h]
    rfl
  · rw [account_of_some h]

theorem account_snd_reservations (mr : MemoryReserver) (acc : String) :
    (mr.account acc).2.reservations = mr.reservations := by
  cases h : alookup mr.accounts acc
  · rw [account_of_none h]
  · rw [account_of_some h]

theorem account_snd_nextID (mr : MemoryReserver) (acc : String) :
    (mr.account acc).2.nextReservationID = mr.nextReservationID := by
  cases h : alookup mr.accounts acc
  · rw [account_of_none h]
  · rw [account_of_some h]

theorem account_snd_idem (mr : MemoryReserver) (acc : String) :
    (mr.account acc).2.idempotency = mr.idempotency := by
  cases h : alookup mr.accounts acc
  · rw [account_of_none h]
  · rw [account_of_some h]

theorem account_snd_heldBy (mr : MemoryReserver) (acc a : String) (op : Outpoint) :
    (mr.account acc).2.heldBy a op = mr.heldBy a op := by
  cases h : alookup mr.accounts acc
  · rw [account_of_none h]
    by_cases ha : a = acc
    · subst ha
      simp [MemoryReserver.heldBy, alookup_ainsert_self, h, alookup]
    · simp [MemoryReserver.heldBy, alookup_ainsert_ne ha]
  · rw [account_of_some h]

theorem account_snd_alookup_self (mr : MemoryReserver) (acc : String) :
    alookup (mr.account acc).2.accounts acc = some (mr.account acc).1 := by
  cases h : alookup mr.accounts acc
  · rw [account_of_none h]
    exact alookup_ainsert_self _ _ _
  · rw [account_of_some h]
    exact h

theorem account_snd_alookup_ne {mr : MemoryReserver} {acc a : String} (hne : a ≠ acc) :
    alookup (mr.account acc).2.accounts a = alookup mr.accounts a := by
  cases h : alookup mr.accounts acc
  · rw [account_of_none h]
    exact alookup_ainsert_ne hne
  · rw [account_of_some h]

theorem account_snd_accounts_mem {mr : MemoryReserver} {acc : String}
    {pa : String × AccountReserver} (h : pa ∈ (mr.account acc).2.accounts) :
    pa ∈ mr.accounts ∨ pa = (acc, AccountReserver.mk []) := by
  cases hl : alookup mr.accounts acc
  · rw [account_of_none hl] at h
    rcases mem_ainsert.mp h with h | h
    · exact Or.inr h
    · exact Or.inl h.1
  · rw [account_of_some hl] at h
    exact Or.inl h

theorem account_snd_keysNodup {mr : MemoryReserver} {acc : String}
    (hn : keysNodup mr.accounts) : keysNodup (mr.account acc).2.accounts := by
  cases hl : alookup mr.accounts acc
  · rw [account_of_none hl]
    exact keysNodup_ainsert hn
  · rw [account_of_some hl]
    exact hn

theorem heldBy_set_self {n : Nat} {g : IdempotencyGroup}
    {regs : List (Nat × Reservation)} {accs : List (String × AccountReserver)}
    (acc : String) (ar : AccountReserver) (op : Outpoint) :
    (MemoryReserver.mk n g regs (ainsert accs acc ar)).heldBy acc op =
      alookup ar.reserved op := by
  simp [MemoryReserver.heldBy, alookup_ainsert_self]

theorem heldBy_set_ne {n : Nat} {g : IdempotencyGroup}
    {regs : List (Nat × Reservation)} {accs : List (String × AccountReserver)}
    {a acc : String} (hne : a ≠ acc) (ar : AccountReserver) (op : Outpoint) :
    (MemoryReserver.mk n g regs (ainsert accs acc ar)).heldBy a op =
      (MemoryReserver.mk n g regs accs).heldBy a op := by
  simp [MemoryReserver.heldBy, alookup_ainsert_ne hne]

/-
Unfolding lemmas for the registry-level operations.
-/

theorem bump_accounts (mr : MemoryReserver) : mr.bump.accounts = mr.accounts := rfl

theorem bump_reservations (mr : MemoryReserver) : mr.bump.reservations = mr.reservations := rfl

theorem bump_idem (mr : MemoryReserver) : mr.bump.idempotency = mr.idempotency := rfl

theorem bump_nextID (mr : MemoryReserver) :
    mr.bump.nextReservationID = mr.nextReservationID + 1 := rfl

theorem bump_heldBy (mr : MemoryReserver) (a : String) (op : Outpoint) :
    mr.bump.heldBy a op = mr.heldBy a op := rfl

theorem account_fst_isReserved (mr : MemoryReserver) (acc : String) (op : Outpoint) :
    ((mr.account acc).1).isReserved op = (mr.heldBy acc op).isSome := by
  rw [AccountReserver.isReserved, account_fst_lookup]

theorem mreserve_of_inl {mr : MemoryReserver} {db : List DBRow} {source : Source}
    {exp : Nat} {e : RErr}
    (h : ((mr.bump.account source.accountID).1).reserve mr.bump.nextReservationID source
        (findMatchingUTXOs db source) = Sum.inl e) :
    mr.reserve db source exp =
      (ReserveResult.err e, (mr.bump.account source.accountID).2) := by
  simp only [MemoryReserver.reserve, h]

theorem mreserve_of_inr {mr : MemoryReserver} {db : List DBRow} {source : Source}
    {exp : Nat} {sel : List UTXO} {total : Nat} {ar2 : AccountReserver}
    (h : ((mr.bump.account source.accountID).1).reserve mr.bump.nextReservationID source
        (findMatchingUTXOs db source) = Sum.inr (sel, total, ar2)) :
    mr.reserve db source exp =
      (ReserveResult.ok
        { id := mr.bump.nextReservationID,
          accountID := source.accountID,
          utxos := sel,
          change :=
            if source.amount < total then
              [{ source := source, amount := total - source.amount }]
            else [],
          expiry := exp,
          clientToken := source.clientToken },
       { (mr.bump.account source.accountID).2 with
           reservations :=
             ainsert (mr.bump.account source.accountID).2.reservations
               mr.bump.nextReservationID
               { id := mr.bump.nextReservationID,
                 accountID := source.accountID,
                 utxos := sel,
                 change :=
                   if source.amount < total then
                     [{ source := source, amount := total - source.amount }]
                   else [],
                 expiry := exp,
                 clientToken := source.clientToken },
           accounts :=
             ainsert (mr.bump.account source.accountID).2.accounts
               source.accountID ar2 }) := by
  simp only [MemoryReserver.reserve, h]

theorem mreserveUTXO_of_notFound {mr : MemoryReserver} {db : List DBRow}
    {h p : Nat} {tok : Option String} {exp : Nat}
    (hf : findSpecificUTXO db h p = none) :
    mr.ReserveUTXO db h p tok exp = (ReserveResult.err RErr.notFound, mr) := by
  simp only [MemoryReserver.ReserveUTXO, hf]

theorem mreserveUTXO_of_held {mr : MemoryReserver} {db : List DBRow}
    {h p : Nat} {tok : Option String} {exp : Nat} {utxo : UTXO}
    (hf : findSpecificUTXO db h p = some utxo)
    (hh : ((mr.bump.account utxo.accountID).1).isReserved utxo.outpoint = true) :
    mr.ReserveUTXO db h p tok exp =
      (ReserveResult.err RErr.reserved, (mr.bump.account utxo.accountID).2) := by
  simp only [MemoryReserver.ReserveUTXO, hf, reserveUTXO_of_held hh]

theorem mreserveUTXO_of_free {mr : MemoryReserver} {db : List DBRow}
    {h p : Nat} {tok : Option String} {exp : Nat} {utxo : UTXO}
    (hf : findSpecificUTXO db h p = some utxo)
    (hh : ((mr.bump.account utxo.accountID).1).isReserved utxo.outpoint = false) :
    mr.ReserveUTXO db h p tok exp =
      (ReserveResult.ok
        { id := mr.bump.nextReservationID,
          accountID := utxo.accountID,
          utxos := [utxo],
          change := [],
          expiry := exp,
          clientToken := none },
       { (mr.bump.account utxo.accountID).2 with
           reservations :=
             ainsert (mr.bump.account utxo.accountID).2.reservations
               mr.bump.nextReservationID
               { id := mr.bump.nextReservationID,
                 accountID := utxo.accountID,
                 utxos := [utxo],
                 change := [],
                 expiry := exp,
                 clientToken := none },
           accounts :=
             ainsert (mr.bump.account utxo.accountID).2.accounts utxo.accountID
               (AccountReserver.mk
                 (ainsert ((mr.bump.account utxo.accountID).1).reserved utxo.outpoint
                   mr.bump.nextReservationID)) }) := by
  simp only [MemoryReserver.ReserveUTXO, hf, reserveUTXO_of_free hh]

theorem cancel_of_notFound {mr : MemoryReserver} {rid : Nat}
    (h : alookup mr.reservations rid = none) :
    mr.Cancel rid = (some RErr.notFound, mr) := by
  simp only [MemoryReserver.Cancel, h]

theorem cancel_of_found {mr : MemoryReserver} {rid : Nat} {res : Reservation}
    (h : alookup mr.reservations rid = some res) :
    mr.Cancel rid =
      (none,
       ({ mr with reservations := aerase mr.reservations rid } : MemoryReserver).releaseOne
         res) := by
  simp only [MemoryReserver.Cancel, h]

/-
Lemmas about releaseOne and its folds (the bodies of Cancel and of the
release loop of ExpireReservations).
-/

theorem releaseOne_reservations (mr : MemoryReserver) (res : Reservation) :
    (mr.releaseOne res).reservations = mr.reservations := by
  rw [MemoryReserver.releaseOne]
  cases h : res.clientToken
  · simp only [h]
    exact account_snd_reservations mr res.accountID
  · simp only [h]
    exact account_snd_reservations mr res.accountID

theorem releaseOne_nextID (mr : MemoryReserver) (res : Reservation) :
    (mr.releaseOne res).nextReservationID = mr.nextReservationID := by
  rw [MemoryReserver.releaseOne]
  cases h : res.clientToken
  · simp only [h]
    exact account_snd_nextID mr res.accountID
  · simp only [h]
    exact account_snd_nextID mr res.accountID

theorem releaseOne_idem_of_none {mr : MemoryReserver} {res : Reservation}
    (h : res.clientToken = none) :
    (mr.releaseOne res).idempotency = mr.idempotency := by
  rw [MemoryReserver.releaseOne]
  simp only [h]
  exact account_snd_idem mr res.accountID

theorem releaseOne_idem_of_some {mr : MemoryReserver} {res : Reservation} {tok : String}
    (h : res.clientToken = some tok) :
    (mr.releaseOne res).idempotency = mr.idempotency.forget tok := by
  rw [MemoryReserver.releaseOne]
  simp only [h]
  rw [IdempotencyGroup.forget, IdempotencyGroup.forget]
  congr 1
  exact account_snd_idem mr res.accountID

theorem releaseOne_accounts (mr : MemoryReserver) (res : Reservation) :
    (mr.releaseOne res).accounts =
      ainsert (mr.account res.accountID).2.accounts res.accountID
        ((mr.account res.accountID).1.cancel res) := by
  rw [MemoryReserver.releaseOne]
  cases h : res.clientToken
  · simp only [h]
  · simp only [h]

theorem heldBy_of_alookup_some {mr : MemoryReserver} {a : String} {ar : AccountReserver}
    (op : Outpoint) (h : alookup mr.accounts a = some ar) :
    mr.heldBy a op = alookup ar.reserved op := by
  rw [MemoryReserver.heldBy, h]

theorem heldBy_of_alookup_none {mr : MemoryReserver} {a : String} (op : Outpoint)
    (h : alookup mr.accounts a = none) : mr.heldBy a op = none := by
  rw [MemoryReserver.heldBy, h]

theorem releaseOne_heldBy (mr : MemoryReserver) (res : Reservation) (a : String)
    (op : Outpoint) :
    (mr.releaseOne res).heldBy a op =
      if a = res.accountID ∧ op ∈ outpoints res.utxos then none
      else mr.heldBy a op := by
  have hacc := releaseOne_accounts mr res
  by_cases ha : a = res.accountID
  · subst ha
    have hl : alookup (mr.releaseOne res).accounts res.accountID =
        some ((mr.account res.accountID).1.cancel res) := by
      rw [hacc]
      exact alookup_ainsert_self _ _ _
    rw [heldBy_of_alookup_some op hl]
    by_cases hop : op ∈ outpoints res.utxos
    · rw [if_pos ⟨rfl, hop⟩]
      exact alookup_eraseOutpoints_mem hop
    · rw [if_neg (fun hc => hop hc.2)]
      have hnm := alookup_eraseOutpoints_not_mem
        (m := (mr.account res.accountID).1.reserved) hop
      rw [account_fst_lookup] at hnm
      exact hnm
  · rw [if_neg (fun hc => ha hc.1)]
    have hl : alookup (mr.releaseOne res).accounts a = alookup mr.accounts a := by
      rw [hacc, alookup_ainsert_ne ha]
      exact account_snd_alookup_ne ha
    rw [MemoryReserver.heldBy, hl, MemoryReserver.heldBy]

theorem releaseOne_accounts_entries {mr : MemoryReserver} {res : Reservation}
    {pa : String × AccountReserver} (h : pa ∈ (mr.releaseOne res).accounts) :
    ∀ pe ∈ pa.2.reserved, ∃ ar0, (pa.1, ar0) ∈ mr.accounts ∧ pe ∈ ar0.reserved := by
  rw [releaseOne_accounts] at h
  rcases mem_ainsert.mp h with h | h
  · subst h
    intro pe hpe
    simp only at hpe ⊢
    cases hl : alookup mr.accounts res.accountID
    · rw [account_of_none hl] at hpe
      simp [AccountReserver.cancel] at hpe
      exact absurd (mem_eraseOutpoints hpe) (by simp)
    · rw [account_of_some hl] at hpe
      refine ⟨_, alookup_mem hl, ?_⟩
      exact mem_eraseOutpoints hpe
  · rcases account_snd_accounts_mem h.1 with hm | hm
    · intro pe hpe
      exact ⟨pa.2, hm, hpe⟩
    · rw [hm] at h
      exact absurd rfl h.2

theorem releaseOne_accounts_keysNodup {mr : MemoryReserver} {res : Reservation}
    (hn : keysNodup mr.accounts) : keysNodup (mr.releaseOne res).accounts := by
  rw [releaseOne_accounts]
  exact keysNodup_ainsert (account_snd_keysNodup hn)

theorem releaseOne_reservedNodup {mr : MemoryReserver} {res : Reservation}
    (hn : ∀ pa ∈ mr.accounts, keysNodup pa.2.reserved) :
    ∀ pa ∈ (mr.releaseOne res).accounts, keysNodup pa.2.reserved := by
  intro pa hpa
  rw [releaseOne_accounts] at hpa
  rcases mem_ainsert.mp hpa with h | h
  · subst h
    simp only [AccountReserver.cancel]
    apply keysNodup_eraseOutpoints
    cases hl : alookup mr.accounts res.accountID
    · rw [account_of_none hl]
      exact List.nodup_nil
    · rw [account_of_some hl]
      exact hn _ (alookup_mem hl)
  · rcases account_snd_accounts_mem h.1 with hm | hm
    · exact hn pa hm
    · rw [hm]
      exact List.nodup_nil

theorem foldl_releaseOne_reservations (rs : List Reservation) (mr : MemoryReserver) :
    (rs.foldl MemoryReserver.releaseOne mr).reservations = mr.reservations := by
  induction rs generalizing mr with
  | nil => rfl
  | cons r rs ih => rw [List.foldl_cons, ih, releaseOne_reservations]

theorem foldl_releaseOne_nextID (rs : List Reservation) (mr : MemoryReserver) :
    (rs.foldl MemoryReserver.releaseOne mr).nextReservationID = mr.nextReservationID := by
  induction rs generalizing mr with
  | nil => rfl
  | cons r rs ih => rw [List.foldl_cons, ih, releaseOne_nextID]

theorem foldl_releaseOne_heldBy (rs : List Reservation) (mr : MemoryReserver)
    (a : String) (op : Outpoint) :
    (rs.foldl MemoryReserver.releaseOne mr).heldBy a op =
      if ∃ res ∈ rs, a = res.accountID ∧ op ∈ outpoints res.utxos then none
      else mr.heldBy a op := by
  induction rs generalizing mr with
  | nil => simp
  | cons r rs ih =>
    rw [List.foldl_cons, ih, releaseOne_heldBy]
    by_cases hr : ∃ res ∈ rs, a = res.accountID ∧ op ∈ outpoints res.utxos
    · rw [if_pos hr, if_pos (by obtain ⟨res, h1, h2⟩ := hr; exact ⟨res, List.mem_cons_of_mem _ h1, h2⟩)]
    · rw [if_neg hr]
      by_cases hc : a = r.accountID ∧ op ∈ outpoints r.utxos
      · rw [if_pos hc, if_pos ⟨r, List.mem_cons_self _ _, hc⟩]
      · rw [if_neg hc, if_neg ?_]
        rintro ⟨res, hres, hcov⟩
        rcases List.mem_cons.mp hres with he | he
        · exact hc (he ▸ hcov)
        · exact hr ⟨res, he, hcov⟩

theorem foldl_releaseOne_accounts_entries {rs : List Reservation} {mr : MemoryReserver}
    {pa : String × AccountReserver}
    (h : pa ∈ (rs.foldl MemoryReserver.releaseOne mr).accounts) :
    ∀ pe ∈ pa.2.reserved, ∃ ar0, (pa.1, ar0) ∈ mr.accounts ∧ pe ∈ ar0.reserved := by
  induction rs generalizing mr pa with
  | nil => exact fun pe hpe => ⟨pa.2, h, hpe⟩
  | cons r rs ih =>
    rw [List.foldl_cons] at h
    intro pe hpe
    obtain ⟨ar1, har1, hpe1⟩ := ih h pe hpe
    exact releaseOne_accounts_entries har1 pe hpe1

theorem foldl_releaseOne_accounts_keysNodup {rs : List Reservation} {mr : MemoryReserver}
    (hn : keysNodup mr.accounts) :
    keysNodup (rs.foldl MemoryReserver.releaseOne mr).accounts := by
  induction rs generalizing mr with
  | nil => exact hn
  | cons r rs ih =>
    rw [List.foldl_cons]
    exact ih (releaseOne_accounts_keysNodup hn)

theorem foldl_releaseOne_reservedNodup {rs : List Reservation} {mr : MemoryReserver}
    (hn : ∀ pa ∈ mr.accounts, keysNodup pa.2.reserved) :
    ∀ pa ∈ (rs.foldl MemoryReserver.releaseOne mr).accounts, keysNodup pa.2.reserved := by
  induction rs generalizing mr with
  | nil => exact hn
  | cons r rs ih =>
    rw [List.foldl_cons]
    exact ih (releaseOne_reservedNodup hn)

/-
Characterization of ExpireReservations.
-/

theorem alookup_filter_of_neg {α β : Type} [DecidableEq α] {m : List (α × β)} {k : α}
    {v : β} {f : α × β → Bool} (hn : keysNodup m) (h : alookup m k = some v)
    (hf : f (k, v) = false) : alookup (m.filter f) k = none := by
  rw [alookup_eq_none]
  intro p hp hpk
  have hm := List.mem_filter.mp hp
  have hpv : p.2 = v := by
    have h2 : alookup m p.1 = some p.2 := alookup_of_mem_nodup hn hm.1
    rw [hpk, h] at h2
    exact (Option.some.inj h2).symm
  have hpkv : p = (k, v) := by
    cases p
    cases hpk
    cases hpv
    rfl
  rw [hpkv] at hm
  rw [hf] at hm
  exact Bool.noConfusion hm.2

theorem entry_eq_of_keysNodup {α β : Type} [DecidableEq α] {m : List (α × β)}
    {p q : α × β} (hn : keysNodup m) (hp : p ∈ m) (hq : q ∈ m) (hk : p.1 = q.1) :
    p = q := by
  have h1 : alookup m p.1 = some p.2 := alookup_of_mem_nodup hn hp
  have h2 : alookup m q.1 = some q.2 := alookup_of_mem_nodup hn hq
  rw [hk, h2] at h1
  cases p
  cases q
  cases hk
  cases Option.some.inj h1
  rfl

theorem mem_eraseOutpoints_keys {m : List (Outpoint × Nat)} {us : List UTXO}
    {p : Outpoint × Nat} (h : p ∈ eraseOutpoints m us) : p.1 ∉ outpoints us := by
  induction us generalizing m with
  | nil => simp [outpoints]
  | cons u us ih =>
    rw [eraseOutpoints_cons] at h
    rw [outpoints, List.map_cons, List.mem_cons]
    push_neg
    refine ⟨?_, by rw [← outpoints]; exact ih h⟩
    intro hk
    have hme : p ∈ aerase m u.outpoint := by
      revert h
      generalize aerase m u.outpoint = m1
      intro h
      exact mem_eraseOutpoints h
    exact (mem_aerase.mp hme).2 hk

theorem heldBy_gc (mr mrg : MemoryReserver)
    (hacc : mrg.accounts =
      mr.accounts.filter (fun pa => decide (pa.2.reserved ≠ [])))
    (hn : keysNodup mr.accounts) (a : String) (op : Outpoint) :
    mrg.heldBy a op = mr.heldBy a op := by
  cases hl : alookup mr.accounts a with
  | none =>
    rw [heldBy_of_alookup_none op hl]
    refine heldBy_of_alookup_none op ?_
    rw [hacc]
    exact alookup_filter_none _ hl
  | some ar =>
    by_cases he : ar.reserved = []
    · rw [heldBy_of_alookup_some op hl,
        heldBy_of_alookup_none op
          (by rw [hacc]; exact alookup_filter_of_neg hn hl (by simp [he])), he]
      rfl
    · rw [heldBy_of_alookup_some op hl,
        heldBy_of_alookup_some op
          (by rw [hacc]; exact alookup_filter_some _ hn hl (by simp [he]))]

theorem expire_unfold (mr : MemoryReserver) (now : Nat) :
    mr.ExpireReservations now =
      { ((mr.reservations.filter (fun pr => decide (pr.2.expiry < now))).map
          Prod.snd).foldl MemoryReserver.releaseOne
          { mr with
              reservations :=
                mr.reservations.filter (fun pr => decide (¬ pr.2.expiry < now)) } with
        accounts :=
          (((mr.reservations.filter (fun pr => decide (pr.2.expiry < now))).map
            Prod.snd).foldl MemoryReserver.releaseOne
            { mr with
                reservations :=
                  mr.reservations.filter
                    (fun pr => decide (¬ pr.2.expiry < now)) }).accounts.filter
            (fun pa => decide (pa.2.reserved ≠ [])) } := rfl

theorem expire_reservations (mr : MemoryReserver) (now : Nat) :
    (mr.ExpireReservations now).reservations =
      mr.reservations.filter (fun pr => decide (¬ pr.2.expiry < now)) := by
  rw [expire_unfold]
  exact foldl_releaseOne_reservations _ _

theorem expire_nextID (mr : MemoryReserver) (now : Nat) :
    (mr.ExpireReservations now).nextReservationID = mr.nextReservationID := by
  rw [expire_unfold]
  exact foldl_releaseOne_nextID _ _

theorem expire_heldBy (mr : MemoryReserver) (now : Nat) (hn : keysNodup mr.accounts)
    (a : String) (op : Outpoint) :
    (mr.ExpireReservations now).heldBy a op =
      if ∃ pr ∈ mr.reservations.filter
          (fun q : Nat × Reservation => decide (q.2.expiry < now)),
          a = pr.2.accountID ∧ op ∈ outpoints pr.2.utxos then none
      else mr.heldBy a op := by
  have h1 := heldBy_gc
    (((mr.reservations.filter
        (fun q : Nat × Reservation => decide (q.2.expiry < now))).map
      Prod.snd).foldl MemoryReserver.releaseOne
      { mr with
          reservations :=
            mr.reservations.filter
              (fun q : Nat × Reservation => decide (¬ q.2.expiry < now)) })
    (mr.ExpireReservations now) rfl (foldl_releaseOne_accounts_keysNodup hn) a op
  rw [h1, foldl_releaseOne_heldBy]
  have hm1 : ({ mr with
      reservations :=
        mr.reservations.filter
          (fun q : Nat × Reservation => decide (¬ q.2.expiry < now)) } :
      MemoryReserver).heldBy a op = mr.heldBy a op := rfl
  rw [hm1]
  have hiff : (∃ res ∈ (mr.reservations.filter
        (fun q : Nat × Reservation => decide (q.2.expiry < now))).map Prod.snd,
      a = res.accountID ∧ op ∈ outpoints res.utxos) ↔
      (∃ pr ∈ mr.reservations.filter
        (fun q : Nat × Reservation => decide (q.2.expiry < now)),
        a = pr.2.accountID ∧ op ∈ outpoints pr.2.utxos) := by
    constructor
    · rintro ⟨res, hres, hP⟩
      obtain ⟨pr, hpr, hpr2⟩ := List.mem_map.mp hres
      exact ⟨pr, hpr, by rw [hpr2]; exact hP⟩
    · rintro ⟨pr, hpr, hP⟩
      exact ⟨pr.2, List.mem_map.mpr ⟨pr, hpr, rfl⟩, hP⟩
  exact if_congr hiff rfl rfl

theorem expire_alookup (mr : MemoryReserver) (now : Nat)
    (hn : keysNodup mr.reservations) (rid : Nat) :
    alookup (mr.ExpireReservations now).reservations rid =
      match alookup mr.reservations rid with
      | none => none
      | some res => if res.expiry < now then none else some res := by
  rw [expire_reservations]
  cases hl : alookup mr.reservations rid with
  | none => exact alookup_filter_none _ hl
  | some res =>
    show _ = if res.expiry < now then none else some res
    by_cases he : res.expiry < now
    · rw [if_pos he]
      exact alookup_filter_of_neg hn hl (by simp [he])
    · rw [if_neg he]
      exact alookup_filter_some _ hn hl (by simp [he])

/-
Further helpers on account and the store queries.
-/

theorem account_fst_reservedNodup {mr : MemoryReserver} {acc : String}
    (hn : ∀ pa ∈ mr.accounts, keysNodup pa.2.reserved) :
    keysNodup ((mr.account acc).1).reserved := by
  cases hl : alookup mr.accounts acc with
  | none =>
    rw [account_of_none hl]
    exact List.nodup_nil
  | some ar =>
    rw [account_of_some hl]
    exact hn _ (alookup_mem hl)

theorem account_fst_mem {mr : MemoryReserver} {acc : String}
    {pe : Outpoint × Nat} (h : pe ∈ ((mr.account acc).1).reserved) :
    (acc, (mr.account acc).1) ∈ mr.accounts := by
  cases hl : alookup mr.accounts acc with
  | none =>
    rw [account_of_none hl] at h
    exact absurd h (by simp)
  | some ar =>
    rw [account_of_some hl]
    exact alookup_mem hl

theorem find?_spec {α : Type} {p : α → Bool} {l : List α} {a : α}
    (h : l.find? p = some a) : a ∈ l ∧ p a = true := by
  induction l with
  | nil => cases h
  | cons x xs ih =>
    by_cases hp : p x = true
    · rw [List.find?_cons_of_pos _ hp] at h
      cases h
      exact ⟨List.mem_cons_self _ _, hp⟩
    · rw [List.find?_cons_of_neg _ (by simpa using hp)] at h
      obtain ⟨h1, h2⟩ := ih h
      exact ⟨List.mem_cons_of_mem _ h1, h2⟩

theorem findSpecificUTXO_row {db : List DBRow} {h p : Nat} {u : UTXO}
    (hf : findSpecificUTXO db h p = some u) :
    ∃ r ∈ db, rowMatches u.outpoint u.accountID r ∧ u.outpoint = Outpoint.mk h p := by
  rw [findSpecificUTXO] at hf
  cases hr : db.find? (fun r => decide (r.txHash = h ∧ r.index = p)) with
  | none => rw [hr] at hf; cases hf
  | some r =>
    rw [hr] at hf
    obtain ⟨hmem, hcondb⟩ := find?_spec hr
    have hcond := of_decide_eq_true hcondb
    cases hf
    exact ⟨r, hmem, ⟨hcond.1, hcond.2, rfl⟩, rfl⟩

/-
The invariant: bridging lemmas and preservation by every operation.
-/

theorem heldBy_congr {mr mr2 : MemoryReserver} {a : String} (op : Outpoint)
    (h : alookup mr2.accounts a = alookup mr.accounts a) :
    mr2.heldBy a op = mr.heldBy a op := by
  rw [MemoryReserver.heldBy, MemoryReserver.heldBy, h]

theorem mem_outpoints {u : UTXO} {us : List UTXO} (h : u ∈ us) :
    u.outpoint ∈ outpoints us :=
  List.mem_map.mpr ⟨u, h, rfl⟩

theorem outpoints_mem {op : Outpoint} {us : List UTXO} (h : op ∈ outpoints us) :
    ∃ u ∈ us, u.outpoint = op :=
  List.mem_map.mp h

theorem inv_heldBy_live {db : List DBRow} {mr : MemoryReserver} (hinv : Inv db mr)
    {a : String} {op : Outpoint} {rid : Nat} (h : mr.heldBy a op = some rid) :
    ∃ res, alookup mr.reservations rid = some res ∧ res.accountID = a ∧
      op ∈ outpoints res.utxos := by
  obtain ⟨_, _, _, h4, _, _, _⟩ := hinv
  cases hl : alookup mr.accounts a with
  | none => rw [heldBy_of_alookup_none op hl] at h; cases h
  | some ar =>
    rw [heldBy_of_alookup_some op hl] at h
    exact h4 (a, ar) (alookup_mem hl) (op, rid) (alookup_mem h)

theorem inv_heldBy_row {db : List DBRow} {mr : MemoryReserver} (hinv : Inv db mr)
    {a : String} {op : Outpoint} {rid : Nat} (h : mr.heldBy a op = some rid) :
    ∃ r ∈ db, rowMatches op a r := by
  obtain ⟨_, _, _, _, _, _, h7⟩ := hinv
  cases hl : alookup mr.accounts a with
  | none => rw [heldBy_of_alookup_none op hl] at h; cases h
  | some ar =>
    rw [heldBy_of_alookup_some op hl] at h
    exact h7 (a, ar) (alookup_mem hl) (op, rid) (alookup_mem h)

theorem inv_heldBy_le {db : List DBRow} {mr : MemoryReserver} (hinv : Inv db mr)
    {a : String} {op : Outpoint} {rid : Nat} (h : mr.heldBy a op = some rid) :
    rid ≤ mr.nextReservationID := by
  obtain ⟨res, hres, _, _⟩ := inv_heldBy_live hinv h
  exact hinv.2.2.2.2.2.1 (rid, res) (alookup_mem hres)

theorem inv_bump {db : List DBRow} {mr : MemoryReserver} (hinv : Inv db mr) :
    Inv db mr.bump := by
  obtain ⟨h1, h2, h3, h4, h5, h6, h7⟩ := hinv
  exact ⟨h1, h2, h3, h4, h5, fun pr hpr => Nat.le_succ_of_le (h6 pr hpr), h7⟩

theorem inv_account {db : List DBRow} {mr : MemoryReserver} (acc : String)
    (hinv : Inv db mr) : Inv db (mr.account acc).2 := by
  obtain ⟨h1, h2, h3, h4, h5, h6, h7⟩ := hinv
  cases hl : alookup mr.accounts acc with
  | some ar =>
    rw [account_of_some hl]
    exact ⟨h1, h2, h3, h4, h5, h6, h7⟩
  | none =>
    rw [account_of_none hl]
    refine ⟨h1, keysNodup_ainsert h2, ?_, ?_, ?_, h6, ?_⟩
    · intro pa hpa
      rcases mem_ainsert.mp hpa with h | h
      · rw [h]
        exact List.nodup_nil
      · exact h3 pa h.1
    · intro pa hpa pe hpe
      rcases mem_ainsert.mp hpa with h | h
      · rw [h] at hpe
        exact absurd hpe (by simp)
      · exact h4 pa h.1 pe hpe
    · intro pr hpr u hu
      have hold := h5 pr hpr u hu
      by_cases ha : pr.2.accountID = acc
      · rw [ha, heldBy_of_alookup_none u.outpoint hl] at hold
        cases hold
      · rw [heldBy_congr u.outpoint (alookup_ainsert_ne ha)]
        exact hold
    · intro pa hpa pe hpe
      rcases mem_ainsert.mp hpa with h | h
      · rw [h] at hpe
        exact absurd hpe (by simp)
      · exact h7 pa h.1 pe hpe

theorem inv_mreserve {db : List DBRow} {mr : MemoryReserver} {source : Source}
    {exp : Nat} (hinv : Inv db mr) : Inv db (mr.reserve db source exp).2 := by
  have hq : Inv db (mr.bump.account source.accountID).2 :=
    inv_account _ (inv_bump hinv)
  cases hres : ((mr.bump.account source.accountID).1).reserve mr.bump.nextReservationID
      source (findMatchingUTXOs db source) with
  | inl e =>
    rw [mreserve_of_inl hres]
    exact hq
  | inr r =>
    obtain ⟨sel, total, ar2⟩ := r
    rw [mreserve_of_inr hres]
    obtain ⟨hq1, hq2, hq3, hq4, hq5, hq6, hq7⟩ := hq
    obtain ⟨htot, hamt, hselp, har2⟩ := reserve_inr_spec hres
    have hregs : (mr.bump.account source.accountID).2.reservations = mr.reservations :=
      account_snd_reservations mr.bump source.accountID
    have hqn : (mr.bump.account source.accountID).2.nextReservationID =
        mr.bump.nextReservationID := account_snd_nextID mr.bump source.accountID
    have hfresh : ∀ pr ∈ (mr.bump.account source.accountID).2.reservations,
        pr.1 < mr.bump.nextReservationID := by
      intro pr hpr
      rw [hregs] at hpr
      have := hinv.2.2.2.2.2.1 pr hpr
      rw [bump_nextID]
      omega
    have hp1look : ∀ op, alookup ((mr.bump.account source.accountID).1).reserved op =
        mr.heldBy source.accountID op := by
      intro op
      rw [account_fst_lookup, bump_heldBy]
    have hqheld : ∀ a op, (mr.bump.account source.accountID).2.heldBy a op =
        mr.heldBy a op := by
      intro a op
      rw [account_snd_heldBy, bump_heldBy]
    have hql : alookup (mr.bump.account source.accountID).2.accounts source.accountID =
        some (mr.bump.account source.accountID).1 :=
      account_snd_alookup_self mr.bump source.accountID
    have hp1nodup : keysNodup ((mr.bump.account source.accountID).1).reserved :=
      account_fst_reservedNodup hinv.2.2.1
    refine ⟨keysNodup_ainsert hq1, keysNodup_ainsert hq2, ?_, ?_, ?_, ?_, ?_⟩
    · intro pa hpa
      rcases mem_ainsert.mp hpa with h | h
      · rw [h, har2]
        exact keysNodup_commitOutpoints hp1nodup
      · exact hq3 pa h.1
    · intro pa hpa pe hpe
      rcases mem_ainsert.mp hpa with h | h
      · rw [h] at hpe ⊢
        rw [har2] at hpe
        rcases mem_commitOutpoints hpe with hold | hnew
        · obtain ⟨res0, hres0, hacc0, hmem0⟩ :=
            hq4 (source.accountID, (mr.bump.account source.accountID).1)
              (alookup_mem hql) pe hold
          have hne : pe.2 ≠ mr.bump.nextReservationID :=
            Nat.ne_of_lt (hfresh _ (alookup_mem hres0))
          exact ⟨res0, by rw [alookup_ainsert_ne hne]; exact hres0, hacc0, hmem0⟩
        · refine ⟨_, by rw [hnew.2]; exact alookup_ainsert_self _ _ _, rfl, ?_⟩
          exact hnew.1
      · obtain ⟨res0, hres0, hacc0, hmem0⟩ := hq4 pa h.1 pe hpe
        have hne : pe.2 ≠ mr.bump.nextReservationID :=
          Nat.ne_of_lt (hfresh _ (alookup_mem hres0))
        exact ⟨res0, by rw [alookup_ainsert_ne hne]; exact hres0, hacc0, hmem0⟩
    · intro pr hpr u hu
      rcases mem_ainsert.mp hpr with h | h
      · rw [h] at hu ⊢
        have hmem : u.outpoint ∈ outpoints sel := mem_outpoints hu
        rw [heldBy_of_alookup_some u.outpoint
          (alookup_ainsert_self
            (mr.bump.account source.accountID).2.accounts source.accountID ar2)]
        rw [har2]
        exact alookup_commitOutpoints_mem hmem
      · have hold := hq5 pr h.1 u hu
        by_cases ha : pr.2.accountID = source.accountID
        · rw [ha] at hold ⊢
          rw [heldBy_of_alookup_some u.outpoint
            (alookup_ainsert_self
              (mr.bump.account source.accountID).2.accounts source.accountID ar2)]
          rw [har2]
          have hnm : u.outpoint ∉ outpoints sel := by
            intro hmem
            obtain ⟨u2, hu2, hu2op⟩ := outpoints_mem hmem
            have hfree := (hselp u2 hu2).2
            rw [AccountReserver.isReserved, hu2op, hp1look] at hfree
            rw [heldBy_of_alookup_some u.outpoint hql, hp1look] at hold
            rw [hold] at hfree
            cases hfree
          rw [alookup_commitOutpoints_not_mem hnm, hp1look]
          rw [heldBy_of_alookup_some u.outpoint hql, hp1look] at hold
          exact hold
        · rw [heldBy_congr u.outpoint (alookup_ainsert_ne ha)]
          exact hold
    · intro pr hpr
      rcases mem_ainsert.mp hpr with h | h
      · rw [h]
        rw [hqn]
      · have := hfresh pr h.1
        rw [hqn]
        omega
    · intro pa hpa pe hpe
      rcases mem_ainsert.mp hpa with h | h
      · rw [h] at hpe ⊢
        rw [har2] at hpe
        rcases mem_commitOutpoints hpe with hold | hnew
        · exact hq7 (source.accountID, (mr.bump.account source.accountID).1)
            (alookup_mem hql) pe hold
        · obtain ⟨u, hu, huop⟩ := outpoints_mem hnew.1
          have hrow := findMatchingUTXOs_row (hselp u hu).1
          rw [huop] at hrow
          exact hrow
      · exact hq7 pa h.1 pe hpe

theorem Reserve_of_noToken {mr : MemoryReserver} {db : List DBRow} {source : Source}
    {exp : Nat} (h : source.clientToken = none) :
    mr.Reserve db source exp = mr.reserve db source exp := by
  simp only [MemoryReserver.Reserve, h]

theorem Reserve_of_cached {mr : MemoryReserver} {db : List DBRow} {source : Source}
    {exp : Nat} {tok : String} {r : ReserveResult} (h : source.clientToken = some tok)
    (hc : alookup mr.idempotency tok = some r) :
    mr.Reserve db source exp = (r, mr) := by
  simp only [MemoryReserver.Reserve, h, hc]

theorem Reserve_of_fresh {mr : MemoryReserver} {db : List DBRow} {source : Source}
    {exp : Nat} {tok : String} (h : source.clientToken = some tok)
    (hc : alookup mr.idempotency tok = none) :
    mr.Reserve db source exp =
      ((mr.reserve db source exp).1,
       { (mr.reserve db source exp).2 with
           idempotency :=
             ainsert (mr.reserve db source exp).2.idempotency tok
               (mr.reserve db source exp).1 }) := by
  simp only [MemoryReserver.Reserve, h, hc]

theorem inv_Reserve {db : List DBRow} {mr : MemoryReserver} {source : Source}
    {exp : Nat} (hinv : Inv db mr) : Inv db (mr.Reserve db source exp).2 := by
  cases htok : source.clientToken with
  | none =>
    rw [Reserve_of_noToken htok]
    exact inv_mreserve hinv
  | some tok =>
    cases hc : alookup mr.idempotency tok with
    | some r =>
      rw [Reserve_of_cached htok hc]
      exact hinv
    | none =>
      rw [Reserve_of_fresh htok hc]
      obtain ⟨a, b, c, d, e, f, g⟩ :=
        @inv_mreserve db mr source exp hinv
      exact ⟨a, b, c, d, e, f, g⟩

theorem inv_ReserveUTXO {db : List DBRow} {mr : MemoryReserver} {h p : Nat}
    {tok : Option String} {exp : Nat} (hinv : Inv db mr) :
    Inv db (mr.ReserveUTXO db h p tok exp).2 := by
  cases hf : findSpecificUTXO db h p with
  | none =>
    rw [mreserveUTXO_of_notFound hf]
    exact hinv
  | some utxo =>
    have hq : Inv db (mr.bump.account utxo.accountID).2 :=
      inv_account _ (inv_bump hinv)
    cases hheld : ((mr.bump.account utxo.accountID).1).isReserved utxo.outpoint with
    | true =>
      rw [mreserveUTXO_of_held hf hheld]
      exact hq
    | false =>
      rw [mreserveUTXO_of_free hf hheld]
      obtain ⟨hq1, hq2, hq3, hq4, hq5, hq6, hq7⟩ := hq
      have hregs : (mr.bump.account utxo.accountID).2.reservations = mr.reservations :=
        account_snd_reservations mr.bump utxo.accountID
      have hqn : (mr.bump.account utxo.accountID).2.nextReservationID =
          mr.bump.nextReservationID := account_snd_nextID mr.bump utxo.accountID
      have hfresh : ∀ pr ∈ (mr.bump.account utxo.accountID).2.reservations,
          pr.1 < mr.bump.nextReservationID := by
        intro pr hpr
        rw [hregs] at hpr
        have := hinv.2.2.2.2.2.1 pr hpr
        rw [bump_nextID]
        omega
      have hp1look : ∀ op, alookup ((mr.bump.account utxo.accountID).1).reserved op =
          mr.heldBy utxo.accountID op := by
        intro op
        rw [account_fst_lookup, bump_heldBy]
      have hql : alookup (mr.bump.account utxo.accountID).2.accounts utxo.accountID =
          some (mr.bump.account utxo.accountID).1 :=
        account_snd_alookup_self mr.bump utxo.accountID
      have hp1nodup : keysNodup ((mr.bump.account utxo.accountID).1).reserved :=
        account_fst_reservedNodup hinv.2.2.1
      have hfreelook : alookup ((mr.bump.account utxo.accountID).1).reserved
          utxo.outpoint = none := by
        rw [AccountReserver.isReserved] at hheld
        cases hll : alookup ((mr.bump.account utxo.accountID).1).reserved utxo.outpoint
        · rfl
        · rw [hll] at hheld
          cases hheld
      refine ⟨keysNodup_ainsert hq1, keysNodup_ainsert hq2, ?_, ?_, ?_, ?_, ?_⟩
      · intro pa hpa
        rcases mem_ainsert.mp hpa with hc | hc
        · rw [hc]
          exact keysNodup_ainsert hp1nodup
        · exact hq3 pa hc.1
      · intro pa hpa pe hpe
        rcases mem_ainsert.mp hpa with hc | hc
        · rw [hc] at hpe ⊢
          rcases mem_ainsert.mp hpe with he | he
          · refine ⟨_, by rw [he]; exact alookup_ainsert_self _ _ _, rfl, ?_⟩
            rw [he]
            simp [outpoints]
          · obtain ⟨res0, hres0, hacc0, hmem0⟩ :=
              hq4 (utxo.accountID, (mr.bump.account utxo.accountID).1)
                (alookup_mem hql) pe he.1
            have hne : pe.2 ≠ mr.bump.nextReservationID :=
              Nat.ne_of_lt (hfresh _ (alookup_mem hres0))
            exact ⟨res0, by rw [alookup_ainsert_ne hne]; exact hres0, hacc0, hmem0⟩
        · obtain ⟨res0, hres0, hacc0, hmem0⟩ := hq4 pa hc.1 pe hpe
          have hne : pe.2 ≠ mr.bump.nextReservationID :=
            Nat.ne_of_lt (hfresh _ (alookup_mem hres0))
          exact ⟨res0, by rw [alookup_ainsert_ne hne]; exact hres0, hacc0, hmem0⟩
      · intro pr hpr u hu
        rcases mem_ainsert.mp hpr with hc | hc
        · rw [hc] at hu ⊢
          simp only [List.mem_singleton] at hu
          rw [hu]
          rw [heldBy_of_alookup_some utxo.outpoint
            (alookup_ainsert_self (mr.bump.account utxo.accountID).2.accounts
              utxo.accountID _)]
          exact alookup_ainsert_self _ _ _
        · have hold := hq5 pr hc.1 u hu
          by_cases ha : pr.2.accountID = utxo.accountID
          · rw [ha] at hold ⊢
            rw [heldBy_of_alookup_some u.outpoint
              (alookup_ainsert_self (mr.bump.account utxo.accountID).2.accounts
                utxo.accountID _)]
            rw [heldBy_of_alookup_some u.outpoint hql] at hold
            have hne : u.outpoint ≠ utxo.outpoint := by
              intro he
              rw [he, hfreelook] at hold
              cases hold
            rw [alookup_ainsert_ne hne]
            exact hold
          · rw [heldBy_congr u.outpoint (alookup_ainsert_ne ha)]
            exact hold
      · intro pr hpr
        rcases mem_ainsert.mp hpr with hc | hc
        · rw [hc, hqn]
        · have := hfresh pr hc.1
          rw [hqn]
          omega
      · intro pa hpa pe hpe
        rcases mem_ainsert.mp hpa with hc | hc
        · rw [hc] at hpe ⊢
          rcases mem_ainsert.mp hpe with he | he
          · obtain ⟨r0, hr0, hrm, hop⟩ := findSpecificUTXO_row hf
            rw [he]
            exact ⟨r0, hr0, hrm⟩
          · exact hq7 (utxo.accountID, (mr.bump.account utxo.accountID).1)
              (alookup_mem hql) pe he.1
        · exact hq7 pa hc.1 pe hpe

theorem inv_Cancel {db : List DBRow} {mr : MemoryReserver} {rid : Nat}
    (hinv : Inv db mr) : Inv db (mr.Cancel rid).2 := by
  obtain ⟨h1, h2, h3, h4, h5, h6, h7⟩ := hinv
  cases hres : alookup mr.reservations rid with
  | none =>
    rw [cancel_of_notFound hres]
    exact ⟨h1, h2, h3, h4, h5, h6, h7⟩
  | some res =>
    rw [cancel_of_found hres]
    show Inv db
      (({ mr with reservations := aerase mr.reservations rid } :
        MemoryReserver).releaseOne res)
    set mr1 : MemoryReserver :=
      { mr with reservations := aerase mr.reservations rid } with hmr1
    have hheldres : ∀ u ∈ res.utxos, mr.heldBy res.accountID u.outpoint = some rid :=
      h5 (rid, res) (alookup_mem hres)
    have hSregs : (mr1.releaseOne res).reservations = aerase mr.reservations rid :=
      releaseOne_reservations mr1 res
    refine ⟨?_, ?_, ?_, ?_, ?_, ?_, ?_⟩
    · rw [hSregs]
      exact keysNodup_aerase h1
    · exact releaseOne_accounts_keysNodup h2
    · exact releaseOne_reservedNodup h3
    · intro pa hpa pe hpe
      rw [hSregs]
      rw [releaseOne_accounts] at hpa
      rcases mem_ainsert.mp hpa with hc | hc
      · rw [hc] at hpe
        have hold : pe ∈ ((mr1.account res.accountID).1).reserved :=
          mem_eraseOutpoints hpe
        have hkeys : pe.1 ∉ outpoints res.utxos := mem_eraseOutpoints_keys hpe
        obtain ⟨res0, hres0, hacc0, hmem0⟩ :=
          h4 (res.accountID, (mr1.account res.accountID).1)
            (account_fst_mem hold) pe hold
        have hne : pe.2 ≠ rid := by
          intro he
          rw [he, hres] at hres0
          cases hres0
          exact hkeys hmem0
        rw [hc]
        exact ⟨res0, by rw [alookup_aerase_ne hne]; exact hres0, hacc0, hmem0⟩
      · rcases account_snd_accounts_mem hc.1 with hm | hm
        · obtain ⟨res0, hres0, hacc0, hmem0⟩ := h4 pa hm pe hpe
          have hne : pe.2 ≠ rid := by
            intro he
            rw [he, hres] at hres0
            cases hres0
            exact hc.2 hacc0.symm
          exact ⟨res0, by rw [alookup_aerase_ne hne]; exact hres0, hacc0, hmem0⟩
        · rw [hm] at hc
          exact absurd rfl hc.2
    · intro pr hpr u hu
      rw [hSregs] at hpr
      have hmem := mem_aerase.mp hpr
      have hold := h5 pr hmem.1 u hu
      rw [releaseOne_heldBy]
      rw [if_neg ?_]
      · exact hold
      · rintro ⟨hcov1, hcov2⟩
        obtain ⟨u2, hu2, hu2op⟩ := outpoints_mem hcov2
        have hr2 := hheldres u2 hu2
        rw [hu2op, ← hcov1] at hr2
        rw [hold] at hr2
        cases hr2
        exact hmem.2 rfl
    · intro pr hpr
      rw [hSregs] at hpr
      rw [releaseOne_nextID]
      exact h6 pr (mem_aerase.mp hpr).1
    · intro pa hpa pe hpe
      rw [releaseOne_accounts] at hpa
      rcases mem_ainsert.mp hpa with hc | hc
      · rw [hc] at hpe
        have hold : pe ∈ ((mr1.account res.accountID).1).reserved :=
          mem_eraseOutpoints hpe
        rw [hc]
        exact h7 (res.accountID, (mr1.account res.accountID).1)
          (account_fst_mem hold) pe hold
      · rcases account_snd_accounts_mem hc.1 with hm | hm
        · exact h7 pa hm pe hpe
        · rw [hm] at hpe
          exact absurd hpe (by simp)

theorem expire_accounts (mr : MemoryReserver) (now : Nat) :
    (mr.ExpireReservations now).accounts =
      ((((mr.reservations.filter
            (fun q : Nat × Reservation => decide (q.2.expiry < now))).map
          Prod.snd).foldl MemoryReserver.releaseOne
          { mr with
              reservations :=
                mr.reservations.filter
                  (fun q : Nat × Reservation =>
                    decide (¬ q.2.expiry < now)) }).accounts).filter
        (fun pa => decide (pa.2.reserved ≠ [])) := rfl

theorem inv_Expire {db : List DBRow} {mr : MemoryReserver} {now : Nat}
    (hinv : Inv db mr) : Inv db (mr.ExpireReservations now) := by
  have hinv2 := hinv
  obtain ⟨h1, h2, h3, h4, h5, h6, h7⟩ := hinv2
  have hSregs := expire_reservations mr now
  have hSnext := expire_nextID mr now
  have hSheld := expire_heldBy mr now h2
  have hSacc := expire_accounts mr now
  have hS2 : keysNodup (mr.ExpireReservations now).accounts := by
    rw [hSacc]
    exact keysNodup_filter _ (foldl_releaseOne_accounts_keysNodup h2)
  have hS3 : ∀ pa ∈ (mr.ExpireReservations now).accounts, keysNodup pa.2.reserved := by
    intro pa hpa
    rw [hSacc] at hpa
    exact @foldl_releaseOne_reservedNodup
      ((mr.reservations.filter
          (fun q : Nat × Reservation => decide (q.2.expiry < now))).map Prod.snd)
      { mr with
        reservations :=
          mr.reservations.filter
            (fun q : Nat × Reservation => decide (¬ q.2.expiry < now)) }
      h3 pa (List.mem_filter.mp hpa).1
  refine ⟨?_, hS2, hS3, ?_, ?_, ?_, ?_⟩
  · rw [hSregs]
    exact keysNodup_filter _ h1
  · intro pa hpa pe hpe
    have hlookA : alookup (mr.ExpireReservations now).accounts pa.1 = some pa.2 :=
      alookup_of_mem_nodup hS2 hpa
    have hlookE : alookup pa.2.reserved pe.1 = some pe.2 :=
      alookup_of_mem_nodup (hS3 pa hpa) hpe
    have hheldS : (mr.ExpireReservations now).heldBy pa.1 pe.1 = some pe.2 := by
      rw [heldBy_of_alookup_some pe.1 hlookA]
      exact hlookE
    rw [hSheld] at hheldS
    by_cases hcov : ∃ pr ∈ mr.reservations.filter
        (fun q : Nat × Reservation => decide (q.2.expiry < now)),
        pa.1 = pr.2.accountID ∧ pe.1 ∈ outpoints pr.2.utxos
    · rw [if_pos hcov] at hheldS
      cases hheldS
    · rw [if_neg hcov] at hheldS
      obtain ⟨res0, hres0, hacc0, hmem0⟩ := inv_heldBy_live hinv hheldS
      have hkept : ¬ res0.expiry < now := by
        intro hexp
        exact hcov ⟨(pe.2, res0),
          List.mem_filter.mpr ⟨alookup_mem hres0, by simp [hexp]⟩,
          hacc0.symm, hmem0⟩
      refine ⟨res0, ?_, hacc0, hmem0⟩
      rw [hSregs]
      exact alookup_filter_some _ h1 hres0 (by simp [hkept])
  · intro pr hpr u hu
    rw [hSregs] at hpr
    have hmf := List.mem_filter.mp hpr
    have hkept : ¬ pr.2.expiry < now := by
      have := hmf.2
      simp at this
      omega
    have hold := h5 pr hmf.1 u hu
    rw [hSheld]
    rw [if_neg ?_]
    · exact hold
    · rintro ⟨pr0, hpr0mem, hcov1, hcov2⟩
      have hmf0 := List.mem_filter.mp hpr0mem
      have hexp0 : pr0.2.expiry < now := by
        have := hmf0.2
        simpa using this
      obtain ⟨u2, hu2, hu2op⟩ := outpoints_mem hcov2
      have hx := h5 pr0 hmf0.1 u2 hu2
      rw [hu2op, ← hcov1] at hx
      rw [hold] at hx
      have hinj : pr.1 = pr0.1 := Option.some.inj hx
      have heq := entry_eq_of_keysNodup h1 hmf.1 hmf0.1 hinj
      rw [heq] at hkept
      exact hkept hexp0
  · intro pr hpr
    rw [hSregs] at hpr
    rw [hSnext]
    exact h6 pr (List.mem_filter.mp hpr).1
  · intro pa hpa pe hpe
    rw [hSacc] at hpa
    obtain ⟨ar0, har0, hpe0⟩ :=
      foldl_releaseOne_accounts_entries (List.mem_filter.mp hpa).1 pe hpe
    exact h7 (pa.1, ar0) har0 pe hpe0

theorem inv_applyOp {db : List DBRow} {mr : MemoryReserver} (op : Op)
    (hinv : Inv db mr) : Inv db (mr.applyOp db op) := by
  cases op with
  | reserveOp src exp => exact inv_Reserve hinv
  | reserveUTXOOp h p tok exp => exact inv_ReserveUTXO hinv
  | cancelOp rid => exact inv_Cancel hinv
  | expireOp now => exact inv_Expire hinv

theorem inv_new (db : List DBRow) : Inv db NewMemoryReserver := by
  refine ⟨List.nodup_nil, List.nodup_nil, ?_, ?_, ?_, ?_, ?_⟩ <;>
    intro pa hpa <;> exact absurd hpa (by simp [NewMemoryReserver])

theorem inv_run (db : List DBRow) (ops : List Op) : Inv db (run db ops) := by
  rw [run]
  generalize hstart : NewMemoryReserver = start
  have hs : Inv db start := by rw [← hstart]; exact inv_new db
  clear hstart
  induction ops generalizing start with
  | nil => exact hs
  | cons op ops ih =>
    rw [List.foldl_cons]
    exact ih _ (inv_applyOp op hs)

/-
Helper lemmas feeding the claim theorems.
-/

theorem account_fst_eq_view (mr : MemoryReserver) (acc : String) :
    (mr.account acc).1 = mr.accountView acc := by
  rw [MemoryReserver.accountView]
  cases hl : alookup mr.accounts acc
  · rw [account_of_none hl]
    rfl
  · rw [account_of_some hl]
    rfl

theorem accountView_isReserved (mr : MemoryReserver) (acc : String) (op : Outpoint) :
    (mr.accountView acc).isReserved op = (mr.heldBy acc op).isSome := by
  rw [← account_fst_eq_view]
  exact account_fst_isReserved mr acc op

theorem mreserve_idem (mr : MemoryReserver) (db : List DBRow) (source : Source)
    (exp : Nat) : (mr.reserve db source exp).2.idempotency = mr.idempotency := by
  cases hres : ((mr.bump.account source.accountID).1).reserve mr.bump.nextReservationID
      source (findMatchingUTXOs db source) with
  | inl e =>
    rw [mreserve_of_inl hres]
    exact account_snd_idem mr.bump source.accountID
  | inr r =>
    obtain ⟨sel, total, ar2⟩ := r
    rw [mreserve_of_inr hres]
    exact account_snd_idem mr.bump source.accountID

theorem mreserveUTXO_idem (mr : MemoryReserver) (db : List DBRow) (h p : Nat)
    (tok : Option String) (exp : Nat) :
    (mr.ReserveUTXO db h p tok exp).2.idempotency = mr.idempotency := by
  cases hf : findSpecificUTXO db h p with
  | none => rw [mreserveUTXO_of_notFound hf]
  | some utxo =>
    cases hheld : ((mr.bump.account utxo.accountID).1).isReserved utxo.outpoint with
    | true =>
      rw [mreserveUTXO_of_held hf hheld]
      exact account_snd_idem mr.bump utxo.accountID
    | false =>
      rw [mreserveUTXO_of_free hf hheld]
      exact account_snd_idem mr.bump utxo.accountID

theorem mreserve_err_state {db : List DBRow} {mr : MemoryReserver} {source : Source}
    {exp : Nat} {e : RErr} (h : (mr.reserve db source exp).1 = ReserveResult.err e) :
    (∀ a op, (mr.reserve db source exp).2.heldBy a op = mr.heldBy a op) ∧
    (mr.reserve db source exp).2.reservations = mr.reservations := by
  cases hres : ((mr.bump.account source.accountID).1).reserve mr.bump.nextReservationID
      source (findMatchingUTXOs db source) with
  | inl e2 =>
    rw [mreserve_of_inl hres]
    constructor
    · intro a op
      rw [account_snd_heldBy, bump_heldBy]
    · exact account_snd_reservations mr.bump source.accountID
  | inr r =>
    obtain ⟨sel, total, ar2⟩ := r
    rw [mreserve_of_inr hres] at h
    exact absurd h (by simp)

theorem mreserveUTXO_err_state {db : List DBRow} {mr : MemoryReserver} {h p : Nat}
    {tok : Option String} {exp : Nat} {e : RErr}
    (he : (mr.ReserveUTXO db h p tok exp).1 = ReserveResult.err e) :
    (∀ a op, (mr.ReserveUTXO db h p tok exp).2.heldBy a op = mr.heldBy a op) ∧
    (mr.ReserveUTXO db h p tok exp).2.reservations = mr.reservations := by
  cases hf : findSpecificUTXO db h p with
  | none =>
    rw [mreserveUTXO_of_notFound hf]
    exact ⟨fun a op => rfl, rfl⟩
  | some utxo =>
    cases hheld : ((mr.bump.account utxo.accountID).1).isReserved utxo.outpoint with
    | true =>
      rw [mreserveUTXO_of_held hf hheld]
      constructor
      · intro a op
        rw [account_snd_heldBy, bump_heldBy]
      · exact account_snd_reservations mr.bump utxo.accountID
    | false =>
      rw [mreserveUTXO_of_free hf hheld] at he
      exact absurd he (by simp)

theorem mreserve_no_overwrite {db : List DBRow} {mr : MemoryReserver}
    {source : Source} {exp : Nat} {a : String} {op : Outpoint}
    (h : (mr.heldBy a op).isSome = true) :
    (mr.reserve db source exp).2.heldBy a op = mr.heldBy a op := by
  cases hres : ((mr.bump.account source.accountID).1).reserve mr.bump.nextReservationID
      source (findMatchingUTXOs db source) with
  | inl e =>
    rw [mreserve_of_inl hres]
    rw [account_snd_heldBy, bump_heldBy]
  | inr r =>
    obtain ⟨sel, total, ar2⟩ := r
    rw [mreserve_of_inr hres]
    obtain ⟨htot, hamt, hselp, har2⟩ := reserve_inr_spec hres
    by_cases ha : a = source.accountID
    · subst ha
      rw [heldBy_of_alookup_some op
        (alookup_ainsert_self (mr.bump.account source.accountID).2.accounts
          source.accountID ar2), har2]
      have hnm : op ∉ outpoints sel := by
        intro hmem
        obtain ⟨u2, hu2, hu2op⟩ := outpoints_mem hmem
        have hfree := (hselp u2 hu2).2
        rw [AccountReserver.isReserved, hu2op, account_fst_lookup, bump_heldBy] at hfree
        rw [hfree] at h
        cases h
      rw [alookup_commitOutpoints_not_mem hnm, account_fst_lookup, bump_heldBy]
    · rw [heldBy_congr op (alookup_ainsert_ne ha), account_snd_heldBy, bump_heldBy]

theorem Reserve_no_overwrite {db : List DBRow} {mr : MemoryReserver}
    {source : Source} {exp : Nat} {a : String} {op : Outpoint}
    (h : (mr.heldBy a op).isSome = true) :
    (mr.Reserve db source exp).2.heldBy a op = mr.heldBy a op := by
  cases htok : source.clientToken with
  | none =>
    rw [Reserve_of_noToken htok]
    exact mreserve_no_overwrite h
  | some tok =>
    cases hc : alookup mr.idempotency tok with
    | some r =>
      rw [Reserve_of_cached htok hc]
    | none =>
      rw [Reserve_of_fresh htok hc]
      have hcongr : (({ (mr.reserve db source exp).2 with
          idempotency :=
            ainsert (mr.reserve db source exp).2.idempotency tok
              (mr.reserve db source exp).1 } : MemoryReserver)).heldBy a op =
          (mr.reserve db source exp).2.heldBy a op :=
        heldBy_congr op rfl
      rw [hcongr]
      exact mreserve_no_overwrite h

theorem mreserveUTXO_held_err {db : List DBRow} {mr : MemoryReserver} {h p : Nat}
    {tok : Option String} {exp : Nat} {u : UTXO}
    (hf : findSpecificUTXO db h p = some u)
    (hheld : (mr.heldBy u.accountID u.outpoint).isSome = true) :
    (mr.ReserveUTXO db h p tok exp).1 = ReserveResult.err RErr.reserved := by
  have hres : ((mr.bump.account u.accountID).1).isReserved u.outpoint = true := by
    rw [account_fst_isReserved, bump_heldBy]
    exact hheld
  rw [mreserveUTXO_of_held hf hres]

/-
Claim theorems.
-/

/-- C2: for every successful reservation attempt reserve(source, exp), the
amounts of the UTXOs of the returned Reservation sum to source.amount plus
the sum of the Change amounts, the Change list is empty exactly when the
selected total equals source.amount, and every returned UTXO carries
source.assetID. -/
theorem c2_reserve_conservation (db : List DBRow) (mr : MemoryReserver)
    (source : Source) (exp : Nat) (res : Reservation)
    (hok : (mr.reserve db source exp).1 = ReserveResult.ok res) :
    sumAmounts res.utxos = source.amount + (res.change.map Change.amount).sum ∧
    (res.change = [] ↔ sumAmounts res.utxos = source.amount) ∧
    (∀ u ∈ res.utxos, u.assetID = source.assetID) := by
  cases hres : ((mr.bump.account source.accountID).1).reserve mr.bump.nextReservationID
      source (findMatchingUTXOs db source) with
  | inl e =>
    rw [mreserve_of_inl hres] at hok
    exact absurd hok (by simp)
  | inr r =>
    obtain ⟨sel, total, ar2⟩ := r
    rw [mreserve_of_inr hres] at hok
    obtain ⟨htot, hamt, hselp, har2⟩ := reserve_inr_spec hres
    cases ReserveResult.ok.inj hok
    refine ⟨?_, ?_, ?_⟩
    · show sumAmounts sel = source.amount +
        ((if source.amount < total then
            [{ source := source, amount := total - source.amount }]
          else ([] : List Change)).map Change.amount).sum
      by_cases hch : source.amount < total
      · rw [if_pos hch]
        simp only [List.map_cons, List.map_nil, List.sum_cons, List.sum_nil]
        omega
      · rw [if_neg hch]
        simp only [List.map_nil, List.sum_nil]
        omega
    · show (if source.amount < total then
          [{ source := source, amount := total - source.amount }]
        else ([] : List Change)) = [] ↔ sumAmounts sel = source.amount
      by_cases hch : source.amount < total
      · rw [if_pos hch]
        constructor
        · intro hx
          simp at hx
        · intro hx
          exfalso
          omega
      · rw [if_neg hch]
        constructor
        · intro _
          omega
        · intro _
          rfl
    · intro u hu
      exact findMatchingUTXOs_assetID (hselp u hu).1

theorem c2_reserve_conservation_witness :
    (NewMemoryReserver.reserve sampleDB (sampleSource 25) 9).1 =
      ReserveResult.ok sampleRes25 ∧
    (sumAmounts sampleRes25.utxos =
        (sampleSource 25).amount + (sampleRes25.change.map Change.amount).sum ∧
      (sampleRes25.change = [] ↔
        sumAmounts sampleRes25.utxos = (sampleSource 25).amount) ∧
      (∀ u ∈ sampleRes25.utxos, u.assetID = (sampleSource 25).assetID)) :=
  ⟨by decide,
   c2_reserve_conservation sampleDB NewMemoryReserver (sampleSource 25) 9
     sampleRes25 (by decide)⟩

/-- C3: smallest-first coin selection.  Reserving 25 of asset 1 from acct
over the store with amounts 100, 20, 10 selects exactly the 10 and the 20
(walked in ascending order, stopping once the reserved total reaches 25),
for a total of 30 and a single change entry of 5; and when the 20 is
already held, the walk skips it, accumulating its amount into the
unavailable counter, and selects the 10 and the 100. -/
theorem c3_coin_selection_scenario :
    ((NewMemoryReserver.Reserve sampleDB (sampleSource 25) 9).1 =
        ReserveResult.ok sampleRes25 ∧
      sampleRes25.utxos.map UTXO.amount = [10, 20] ∧
      sumAmounts sampleRes25.utxos = 30 ∧
      sampleRes25.change.map Change.amount = [5]) ∧
    ((sampleMrHeld.Reserve sampleDB (sampleSource 25) 9).1 =
        ReserveResult.ok sampleRes25Skip ∧
      sampleRes25Skip.utxos.map UTXO.amount = [10, 100] ∧
      sampleRes25Skip.change.map Change.amount = [85] ∧
      selectLoop (sampleMrHeld.accountView "acct") 25
          (findMatchingUTXOs sampleDB (sampleSource 25)) 0 0 =
        (110, 20, [sampleUTXO 3 10, sampleUTXO 1 100])) := by
  decide

/-- C4: a failing reservation attempt fails with ErrInsufficient exactly
when the total amount of all candidate UTXOs of the (account, asset) pair,
held and unheld together, is below the requested amount, and with
ErrReserved exactly when that total covers the request but the unheld
candidates alone do not; an account with no candidates fails
ErrInsufficient for any positive request, and a request covered in total
but entirely held fails ErrReserved. -/
theorem c4_reserve_error_classification (db : List DBRow) (mr : MemoryReserver)
    (source : Source) (exp : Nat) :
    ((mr.reserve db source exp).1 = ReserveResult.err RErr.insufficient ↔
      sumAmounts (findMatchingUTXOs db source) < source.amount) ∧
    ((mr.reserve db source exp).1 = ReserveResult.err RErr.reserved ↔
      source.amount ≤ sumAmounts (findMatchingUTXOs db source) ∧
      sumAmounts (unheldCandidates (mr.accountView source.accountID)
        (findMatchingUTXOs db source)) < source.amount) ∧
    (findMatchingUTXOs db source = [] → 0 < source.amount →
      (mr.reserve db source exp).1 = ReserveResult.err RErr.insufficient) ∧
    ((∀ u ∈ findMatchingUTXOs db source,
        (mr.accountView source.accountID).isReserved u.outpoint = true) →
      source.amount ≤ sumAmounts (findMatchingUTXOs db source) →
      0 < source.amount →
      (mr.reserve db source exp).1 = ReserveResult.err RErr.reserved) := by
  have hview : (mr.bump.account source.accountID).1 = mr.accountView source.accountID :=
    account_fst_eq_view mr.bump source.accountID
  obtain ⟨ci, cr, cok⟩ := reserve_cases (mr.bump.account source.accountID).1
    mr.bump.nextReservationID source (findMatchingUTXOs db source)
  have hsplit := sumAmounts_split (mr.bump.account source.accountID).1
    (findMatchingUTXOs db source)
  have hiff1 : (mr.reserve db source exp).1 = ReserveResult.err RErr.insufficient ↔
      sumAmounts (findMatchingUTXOs db source) < source.amount := by
    cases hres : ((mr.bump.account source.accountID).1).reserve
        mr.bump.nextReservationID source (findMatchingUTXOs db source) with
    | inl e =>
      rw [mreserve_of_inl hres]
      cases e with
      | insufficient => exact iff_of_true rfl (ci.mp hres)
      | reserved =>
        refine iff_of_false (by simp) ?_
        intro hs
        exact absurd ((ci.mpr hs).symm.trans hres) (by simp)
      | notFound =>
        refine iff_of_false (by simp) ?_
        intro hs
        exact absurd ((ci.mpr hs).symm.trans hres) (by simp)
    | inr r =>
      obtain ⟨sel, total, ar2⟩ := r
      rw [mreserve_of_inr hres]
      refine iff_of_false (by simp) ?_
      intro hs
      have hok := cok.mp ⟨_, hres⟩
      omega
  have hiff2 : (mr.reserve db source exp).1 = ReserveResult.err RErr.reserved ↔
      source.amount ≤ sumAmounts (findMatchingUTXOs db source) ∧
      sumAmounts (unheldCandidates ((mr.bump.account source.accountID).1)
        (findMatchingUTXOs db source)) < source.amount := by
    cases hres : ((mr.bump.account source.accountID).1).reserve
        mr.bump.nextReservationID source (findMatchingUTXOs db source) with
    | inl e =>
      rw [mreserve_of_inl hres]
      cases e with
      | reserved => exact iff_of_true rfl (cr.mp hres)
      | insufficient =>
        refine iff_of_false (by simp) ?_
        intro hs
        exact absurd ((cr.mpr hs).symm.trans hres) (by simp)
      | notFound =>
        refine iff_of_false (by simp) ?_
        intro hs
        exact absurd ((cr.mpr hs).symm.trans hres) (by simp)
    | inr r =>
      obtain ⟨sel, total, ar2⟩ := r
      rw [mreserve_of_inr hres]
      refine iff_of_false (by simp) ?_
      rintro ⟨hs1, hs2⟩
      have hok := cok.mp ⟨_, hres⟩
      omega
  rw [hview] at hiff2
  refine ⟨hiff1, hiff2, ?_, ?_⟩
  · intro hnil hpos
    apply hiff1.mpr
    rw [hnil]
    exact hpos
  · intro hall hge hpos
    apply hiff2.mpr
    refine ⟨hge, ?_⟩
    have hnil : unheldCandidates (mr.accountView source.accountID)
        (findMatchingUTXOs db source) = [] := by
      rw [unheldCandidates, List.filter_eq_nil_iff]
      intro u hu
      rw [hall u hu]
      simp
    rw [hnil]
    exact hpos

theorem c4_reserve_error_classification_witness :
    (findMatchingUTXOs ([] : List DBRow) (sampleSource 1) = [] ∧
      (NewMemoryReserver.reserve [] (sampleSource 1) 9).1 =
        ReserveResult.err RErr.insufficient) ∧
    ((∀ u ∈ findMatchingUTXOs [sampleRow 2 20] (sampleSource 10),
        (sampleMrHeld.accountView "acct").isReserved u.outpoint = true) ∧
      (sampleMrHeld.reserve [sampleRow 2 20] (sampleSource 10) 9).1 =
        ReserveResult.err RErr.reserved) :=
  ⟨⟨by decide,
    (c4_reserve_error_classification [] NewMemoryReserver (sampleSource 1) 9).2.2.1
      (by decide) (by decide)⟩,
   ⟨by decide,
    (c4_reserve_error_classification [sampleRow 2 20] sampleMrHeld
      (sampleSource 10) 9).2.2.2 (by decide) (by decide) (by decide)⟩⟩

/-- C7: ReserveUTXO returns NotFound when the store has no confirmed UTXO
at the outpoint, AlreadyReserved when the outpoint is already in its
account's held map, and otherwise a Reservation holding exactly the one
looked-up UTXO, with the outpoint now held under the fresh reservation
id. -/
theorem c7_reserveUTXO_cases (db : List DBRow) (mr : MemoryReserver) (h p : Nat)
    (tok : Option String) (exp : Nat) :
    (findSpecificUTXO db h p = none →
      mr.ReserveUTXO db h p tok exp = (ReserveResult.err RErr.notFound, mr)) ∧
    (∀ u, findSpecificUTXO db h p = some u →
      (mr.heldBy u.accountID u.outpoint).isSome = true →
      (mr.ReserveUTXO db h p tok exp).1 = ReserveResult.err RErr.reserved) ∧
    (∀ u, findSpecificUTXO db h p = some u →
      mr.heldBy u.accountID u.outpoint = none →
      (mr.ReserveUTXO db h p tok exp).1 =
        ReserveResult.ok
          { id := mr.nextReservationID + 1, accountID := u.accountID,
            utxos := [u], change := [], expiry := exp, clientToken := none } ∧
      (mr.ReserveUTXO db h p tok exp).2.heldBy u.accountID u.outpoint =
        some (mr.nextReservationID + 1)) := by
  refine ⟨?_, ?_, ?_⟩
  · intro hf
    exact mreserveUTXO_of_notFound hf
  · intro u hf hheld
    exact mreserveUTXO_held_err hf hheld
  · intro u hf hfree
    have hres : ((mr.bump.account u.accountID).1).isReserved u.outpoint = false := by
      rw [account_fst_isReserved, bump_heldBy, hfree]
      rfl
    rw [mreserveUTXO_of_free hf hres]
    constructor
    · rfl
    · rw [heldBy_of_alookup_some u.outpoint
        (alookup_ainsert_self (mr.bump.account u.accountID).2.accounts u.accountID _)]
      exact alookup_ainsert_self _ _ _

theorem c7_reserveUTXO_cases_witness :
    (findSpecificUTXO sampleDB 9 9 = none ∧
      NewMemoryReserver.ReserveUTXO sampleDB 9 9 none 7 =
        (ReserveResult.err RErr.notFound, NewMemoryReserver)) ∧
    (findSpecificUTXO sampleDB 2 0 = some (sampleUTXO 2 20) ∧
      (sampleMrHeld.ReserveUTXO sampleDB 2 0 none 7).1 =
        ReserveResult.err RErr.reserved) ∧
    (findSpecificUTXO sampleDB 3 0 = some (sampleUTXO 3 10) ∧
      (NewMemoryReserver.ReserveUTXO sampleDB 3 0 none 7).1 =
        ReserveResult.ok
          { id := 1, accountID := "acct", utxos := [sampleUTXO 3 10],
            change := [], expiry := 7, clientToken := none } ∧
      (NewMemoryReserver.ReserveUTXO sampleDB 3 0 none 7).2.heldBy "acct"
        (Outpoint.mk 3 0) = some 1) :=
  ⟨⟨by decide,
    (c7_reserveUTXO_cases sampleDB NewMemoryReserver 9 9 none 7).1 (by decide)⟩,
   ⟨by decide,
    (c7_reserveUTXO_cases sampleDB sampleMrHeld 2 0 none 7).2.1 (sampleUTXO 2 20)
      (by decide) (by decide)⟩,
   ⟨by decide,
    ((c7_reserveUTXO_cases sampleDB NewMemoryReserver 3 0 none 7).2.2
      (sampleUTXO 3 10) (by decide) (by decide)).1,
    ((c7_reserveUTXO_cases sampleDB NewMemoryReserver 3 0 none 7).2.2
      (sampleUTXO 3 10) (by decide) (by decide)).2⟩⟩

/-- C8: a Reserve or ReserveUTXO call that returns an error adds no
outpoint to any account's held map and no reservation to the registry, and
both operations preserve the held-set / registry consistency invariant
regardless of outcome. -/
theorem c8_error_no_state_change (db : List DBRow) (mr : MemoryReserver)
    (source : Source) (exp : Nat) (e : RErr) (h p : Nat) (tok : Option String) :
    ((mr.Reserve db source exp).1 = ReserveResult.err e →
      (∀ a op, (mr.Reserve db source exp).2.heldBy a op = mr.heldBy a op) ∧
      (mr.Reserve db source exp).2.reservations = mr.reservations) ∧
    ((mr.ReserveUTXO db h p tok exp).1 = ReserveResult.err e →
      (∀ a op, (mr.ReserveUTXO db h p tok exp).2.heldBy a op = mr.heldBy a op) ∧
      (mr.ReserveUTXO db h p tok exp).2.reservations = mr.reservations) ∧
    (Inv db mr →
      Inv db (mr.Reserve db source exp).2 ∧
      Inv db (mr.ReserveUTXO db h p tok exp).2) := by
  refine ⟨?_, ?_, fun hinv => ⟨inv_Reserve hinv, inv_ReserveUTXO hinv⟩⟩
  · intro herr
    cases htok : source.clientToken with
    | none =>
      rw [Reserve_of_noToken htok] at herr ⊢
      exact mreserve_err_state herr
    | some tok2 =>
      cases hc : alookup mr.idempotency tok2 with
      | some r =>
        rw [Reserve_of_cached htok hc]
        exact ⟨fun a op => rfl, rfl⟩
      | none =>
        rw [Reserve_of_fresh htok hc] at herr ⊢
        obtain ⟨hh, hr⟩ := mreserve_err_state herr
        constructor
        · intro a op
          rw [heldBy_congr op rfl]
          exact hh a op
        · exact hr
  · intro herr
    exact mreserveUTXO_err_state herr

theorem c8_error_no_state_change_witness :
    ((NewMemoryReserver.Reserve [] (sampleSource 1) 9).1 =
      ReserveResult.err RErr.insufficient) ∧
    ((∀ a op, (NewMemoryReserver.Reserve [] (sampleSource 1) 9).2.heldBy a op =
        NewMemoryReserver.heldBy a op) ∧
      (NewMemoryReserver.Reserve [] (sampleSource 1) 9).2.reservations =
        NewMemoryReserver.reservations) ∧
    ((NewMemoryReserver.ReserveUTXO [] 0 0 none 9).1 =
      ReserveResult.err RErr.notFound) ∧
    ((∀ a op, (NewMemoryReserver.ReserveUTXO [] 0 0 none 9).2.heldBy a op =
        NewMemoryReserver.heldBy a op) ∧
      (NewMemoryReserver.ReserveUTXO [] 0 0 none 9).2.reservations =
        NewMemoryReserver.reservations) ∧
    Inv [] NewMemoryReserver ∧
    (Inv [] (NewMemoryReserver.Reserve [] (sampleSource 1) 9).2 ∧
      Inv [] (NewMemoryReserver.ReserveUTXO [] 0 0 none 9).2) :=
  ⟨by decide,
   (c8_error_no_state_change [] NewMemoryReserver (sampleSource 1) 9
     RErr.insufficient 0 0 none).1 (by decide),
   by decide,
   (c8_error_no_state_change [] NewMemoryReserver (sampleSource 1) 9
     RErr.notFound 0 0 none).2.1 (by decide),
   by decide,
   (c8_error_no_state_change [] NewMemoryReserver (sampleSource 1) 9
     RErr.insufficient 0 0 none).2.2 (by decide)⟩

/-- C10: the clientToken argument of ReserveUTXO has no effect: the result
is identical for any two tokens, the idempotency group is never touched,
a successful Reservation carries no client token, a second ReserveUTXO on
the same outpoint then fails AlreadyReserved, and canceling such a
reservation forgets no token. -/
theorem c10_reserveUTXO_ignores_token (db : List DBRow) (mr : MemoryReserver)
    (h p : Nat) (t1 t2 : Option String) (exp : Nat) :
    mr.ReserveUTXO db h p t1 exp = mr.ReserveUTXO db h p t2 exp ∧
    (mr.ReserveUTXO db h p t1 exp).2.idempotency = mr.idempotency ∧
    (∀ res, (mr.ReserveUTXO db h p t1 exp).1 = ReserveResult.ok res →
      res.clientToken = none ∧
      ((mr.ReserveUTXO db h p t1 exp).2.ReserveUTXO db h p t1 exp).1 =
        ReserveResult.err RErr.reserved ∧
      ((mr.ReserveUTXO db h p t1 exp).2.Cancel res.id).2.idempotency =
        (mr.ReserveUTXO db h p t1 exp).2.idempotency) := by
  refine ⟨rfl, mreserveUTXO_idem mr db h p t1 exp, ?_⟩
  intro res hok
  cases hf : findSpecificUTXO db h p with
  | none =>
    rw [mreserveUTXO_of_notFound hf] at hok
    exact absurd hok (by simp)
  | some utxo =>
    cases hheld : ((mr.bump.account utxo.accountID).1).isReserved utxo.outpoint with
    | true =>
      rw [mreserveUTXO_of_held hf hheld] at hok
      exact absurd hok (by simp)
    | false =>
      rw [mreserveUTXO_of_free hf hheld] at hok ⊢
      cases ReserveResult.ok.inj hok
      refine ⟨rfl, ?_, ?_⟩
      · apply mreserveUTXO_held_err hf
        rw [heldBy_of_alookup_some utxo.outpoint
          (alookup_ainsert_self (mr.bump.account utxo.accountID).2.accounts
            utxo.accountID _)]
        rw [alookup_ainsert_self]
        rfl
      · have hlook : alookup
            (ainsert (mr.bump.account utxo.accountID).2.reservations
              mr.bump.nextReservationID
              { id := mr.bump.nextReservationID, accountID := utxo.accountID,
                utxos := [utxo], change := [], expiry := exp,
                clientToken := none })
            mr.bump.nextReservationID =
            some
              { id := mr.bump.nextReservationID, accountID := utxo.accountID,
                utxos := [utxo], change := [], expiry := exp,
                clientToken := none } := alookup_ainsert_self _ _ _
        rw [cancel_of_found hlook]
        rw [releaseOne_idem_of_none rfl]

theorem c10_reserveUTXO_ignores_token_witness :
    (NewMemoryReserver.ReserveUTXO sampleDB 3 0 (some "t") 7).1 =
      ReserveResult.ok
        { id := 1, accountID := "acct", utxos := [sampleUTXO 3 10],
          change := [], expiry := 7, clientToken := none } ∧
    (({ id := 1, accountID := "acct", utxos := [sampleUTXO 3 10],
        change := [], expiry := 7, clientToken := none } :
        Reservation).clientToken = none ∧
      ((NewMemoryReserver.ReserveUTXO sampleDB 3 0 (some "t") 7).2.ReserveUTXO
          sampleDB 3 0 (some "t") 7).1 = ReserveResult.err RErr.reserved ∧
      ((NewMemoryReserver.ReserveUTXO sampleDB 3 0 (some "t") 7).2.Cancel
          1).2.idempotency =
        (NewMemoryReserver.ReserveUTXO sampleDB 3 0 (some "t") 7).2.idempotency) :=
  ⟨by decide,
   (c10_reserveUTXO_ignores_token sampleDB NewMemoryReserver 3 0 (some "t")
     (some "u") 7).2.2
     { id := 1, accountID := "acct", utxos := [sampleUTXO 3 10],
       change := [], expiry := 7, clientToken := none } (by decide)⟩

/-- C6: Cancel on a live reservation id succeeds, removes the reservation
from the registry and releases every outpoint it held from its account's
held map, leaving each immediately reservable; Cancel on an unknown id
fails with the not-found error and leaves the state untouched. -/
theorem c6_cancel (mr : MemoryReserver) (rid : Nat) :
    (∀ res, alookup mr.reservations rid = some res →
      (mr.Cancel rid).1 = none ∧
      alookup (mr.Cancel rid).2.reservations rid = none ∧
      (∀ u ∈ res.utxos,
        (mr.Cancel rid).2.heldBy res.accountID u.outpoint = none ∧
        ((mr.Cancel rid).2.accountView res.accountID).isReserved u.outpoint =
          false)) ∧
    (alookup mr.reservations rid = none →
      mr.Cancel rid = (some RErr.notFound, mr)) := by
  constructor
  · intro res hres
    rw [cancel_of_found hres]
    refine ⟨rfl, ?_, ?_⟩
    · rw [releaseOne_reservations]
      exact alookup_aerase_self _ _
    · intro u hu
      have hheld : (({ mr with reservations := aerase mr.reservations rid } :
          MemoryReserver).releaseOne res).heldBy res.accountID u.outpoint = none := by
        rw [releaseOne_heldBy, if_pos ⟨rfl, mem_outpoints hu⟩]
      refine ⟨hheld, ?_⟩
      rw [accountView_isReserved, hheld]
      rfl
  · intro hres
    exact cancel_of_notFound hres

theorem c6_cancel_witness :
    (alookup sampleMrHeld.reservations 4 = some sampleHeldRes ∧
      ((sampleMrHeld.Cancel 4).1 = none ∧
        alookup (sampleMrHeld.Cancel 4).2.reservations 4 = none ∧
        (∀ u ∈ sampleHeldRes.utxos,
          (sampleMrHeld.Cancel 4).2.heldBy sampleHeldRes.accountID u.outpoint =
            none ∧
          ((sampleMrHeld.Cancel 4).2.accountView
            sampleHeldRes.accountID).isReserved u.outpoint = false))) ∧
    (alookup sampleMrHeld.reservations 99 = none ∧
      sampleMrHeld.Cancel 99 = (some RErr.notFound, sampleMrHeld)) :=
  ⟨⟨by decide, (c6_cancel sampleMrHeld 4).1 sampleHeldRes (by decide)⟩,
   ⟨by decide, (c6_cancel sampleMrHeld 99).2 (by decide)⟩⟩

/-- C9: with a fresh non-empty client token, the first Reserve performs
the one underlying attempt and caches its outcome; a second Reserve
carrying the same token returns exactly that outcome and leaves the state
unchanged; and once the resulting reservation is canceled the token is
forgotten, so a later call with it starts a fresh attempt.  The
idempotency group is modelled from the spec (section 4.3); concurrent
duplicate calls are modelled as executing atomically one after another. -/
theorem c9_idempotent_token (db : List DBRow) (mr : MemoryReserver)
    (source : Source) (exp exp2 : Nat) (tok : String)
    (htok : source.clientToken = some tok)
    (hfresh : alookup mr.idempotency tok = none) :
    (mr.Reserve db source exp).1 = (mr.reserve db source exp).1 ∧
    (∀ source2 : Source, source2.clientToken = some tok →
      (mr.Reserve db source exp).2.Reserve db source2 exp2 =
        ((mr.Reserve db source exp).1, (mr.Reserve db source exp).2)) ∧
    (∀ res, (mr.Reserve db source exp).1 = ReserveResult.ok res →
      alookup ((mr.Reserve db source exp).2.Cancel res.id).2.idempotency tok =
        none) := by
  have hR := @Reserve_of_fresh mr db source exp tok htok hfresh
  refine ⟨by rw [hR], ?_, ?_⟩
  · intro source2 htok2
    have hcache : alookup (mr.Reserve db source exp).2.idempotency tok =
        some (mr.Reserve db source exp).1 := by
      rw [hR]
      exact alookup_ainsert_self _ _ _
    exact Reserve_of_cached htok2 hcache
  · intro res hok
    have hok2 : (mr.reserve db source exp).1 = ReserveResult.ok res := by
      rw [hR] at hok
      exact hok
    cases hres : ((mr.bump.account source.accountID).1).reserve
        mr.bump.nextReservationID source (findMatchingUTXOs db source) with
    | inl e =>
      rw [mreserve_of_inl hres] at hok2
      exact absurd hok2 (by simp)
    | inr r =>
      obtain ⟨sel, total, ar2⟩ := r
      have hct : res.clientToken = some tok := by
        rw [mreserve_of_inr hres] at hok2
        obtain rfl := ReserveResult.ok.inj hok2
        exact htok
      have hlook : alookup (mr.Reserve db source exp).2.reservations res.id =
          some res := by
        rw [mreserve_of_inr hres] at hok2
        rw [hR, mreserve_of_inr hres]
        obtain rfl := ReserveResult.ok.inj hok2
        exact alookup_ainsert_self _ _ _
      rw [cancel_of_found hlook]
      show alookup
        (({ (mr.Reserve db source exp).2 with
            reservations :=
              aerase (mr.Reserve db source exp).2.reservations res.id } :
          MemoryReserver).releaseOne res).idempotency tok = none
      rw [releaseOne_idem_of_some hct]
      exact alookup_aerase_self _ _

theorem c9_idempotent_token_witness :
    ((NewMemoryReserver.Reserve sampleDB sampleSourceTok 9).1 =
      (NewMemoryReserver.reserve sampleDB sampleSourceTok 9).1) ∧
    ((NewMemoryReserver.Reserve sampleDB sampleSourceTok 9).2.Reserve sampleDB
        sampleSourceTok 11 =
      ((NewMemoryReserver.Reserve sampleDB sampleSourceTok 9).1,
       (NewMemoryReserver.Reserve sampleDB sampleSourceTok 9).2)) ∧
    ((NewMemoryReserver.Reserve sampleDB sampleSourceTok 9).1 =
      ReserveResult.ok sampleRes25Tok) ∧
    alookup ((NewMemoryReserver.Reserve sampleDB
        sampleSourceTok 9).2.Cancel 1).2.idempotency "tk" = none :=
  ⟨(c9_idempotent_token sampleDB NewMemoryReserver sampleSourceTok 9 11 "tk" rfl
      (by decide)).1,
   (c9_idempotent_token sampleDB NewMemoryReserver sampleSourceTok 9 11 "tk" rfl
      (by decide)).2.1 sampleSourceTok rfl,
   by decide,
   (c9_idempotent_token sampleDB NewMemoryReserver sampleSourceTok 9 11 "tk" rfl
      (by decide)).2.2 sampleRes25Tok (by decide)⟩

/-- C5 counterexample: the claim says a reservation whose expiry equals
now is swept, but ExpireReservations tests Expiry.Before(now), a strict
comparison: at now = 50 the reservation with expiry 50 stays in the
registry and keeps its hold. -/
theorem c5_expire_at_equal_counterexample :
    sampleHeldRes.expiry = 50 ∧
    alookup ((sampleMrHeld.ExpireReservations 50).reservations) 4 =
      some sampleHeldRes ∧
    (sampleMrHeld.ExpireReservations 50).heldBy "acct" (Outpoint.mk 2 0) =
      some 4 := by
  decide

/-- C5 (amended): ExpireReservations(now) removes from the registry, and
releases the holds of, exactly those reservations whose expiry is strictly
before now; reservations whose expiry is at or after now remain in the
registry with their holds intact. -/
theorem c5_expire_strictly_before (db : List DBRow) (mr : MemoryReserver)
    (now : Nat) (hinv : Inv db mr) :
    (∀ rid res, alookup mr.reservations rid = some res →
      (res.expiry < now →
        alookup (mr.ExpireReservations now).reservations rid = none ∧
        ∀ u ∈ res.utxos,
          (mr.ExpireReservations now).heldBy res.accountID u.outpoint = none) ∧
      (¬ res.expiry < now →
        alookup (mr.ExpireReservations now).reservations rid = some res ∧
        ∀ u ∈ res.utxos,
          (mr.ExpireReservations now).heldBy res.accountID u.outpoint =
            some rid)) ∧
    (∀ rid, alookup mr.reservations rid = none →
      alookup (mr.ExpireReservations now).reservations rid = none) := by
  obtain ⟨h1, h2, h3, h4, h5, h6, h7⟩ := hinv
  constructor
  · intro rid res hres
    constructor
    · intro hexp
      constructor
      · rw [expire_alookup mr now h1 rid, hres]
        show (if res.expiry < now then none else some res) = none
        rw [if_pos hexp]
      · intro u hu
        rw [expire_heldBy mr now h2, if_pos ?_]
        exact ⟨(rid, res),
          List.mem_filter.mpr ⟨alookup_mem hres, by simp [hexp]⟩, rfl,
          mem_outpoints hu⟩
    · intro hexp
      constructor
      · rw [expire_alookup mr now h1 rid, hres]
        show (if res.expiry < now then none else some res) = some res
        rw [if_neg hexp]
      · intro u hu
        rw [expire_heldBy mr now h2, if_neg ?_]
        · exact h5 (rid, res) (alookup_mem hres) u hu
        · rintro ⟨pr0, hpr0, hcov1, hcov2⟩
          have hmf0 := List.mem_filter.mp hpr0
          have hexp0 : pr0.2.expiry < now := by
            have := hmf0.2
            simpa using this
          obtain ⟨u2, hu2, hu2op⟩ := outpoints_mem hcov2
          have hx := h5 pr0 hmf0.1 u2 hu2
          rw [hu2op, ← hcov1] at hx
          have hy := h5 (rid, res) (alookup_mem hres) u hu
          rw [hy] at hx
          have hinj : rid = pr0.1 := Option.some.inj hx
          have heq := entry_eq_of_keysNodup h1 (alookup_mem hres) hmf0.1 hinj
          have : res.expiry < now := by
            rw [show res = pr0.2 from congrArg Prod.snd heq]
            exact hexp0
          exact hexp this
  · intro rid hres
    rw [expire_alookup mr now h1 rid, hres]

theorem c5_expire_strictly_before_witness :
    Inv sampleDB sampleMr2 ∧
    ((∀ rid res, alookup sampleMr2.reservations rid = some res →
      (res.expiry < 20 →
        alookup (sampleMr2.ExpireReservations 20).reservations rid = none ∧
        ∀ u ∈ res.utxos,
          (sampleMr2.ExpireReservations 20).heldBy res.accountID u.outpoint =
            none) ∧
      (¬ res.expiry < 20 →
        alookup (sampleMr2.ExpireReservations 20).reservations rid = some res ∧
        ∀ u ∈ res.utxos,
          (sampleMr2.ExpireReservations 20).heldBy res.accountID u.outpoint =
            some rid)) ∧
    (∀ rid, alookup sampleMr2.reservations rid = none →
      alookup (sampleMr2.ExpireReservations 20).reservations rid = none)) :=
  ⟨by decide, c5_expire_strictly_before sampleDB sampleMr2 20 (by decide)⟩

/-- C1: over every run of Reserve, ReserveUTXO, Cancel and
ExpireReservations operations against a well-formed store, an outpoint
appears in at most one account's held map and maps there to a single,
live, reservation id; Reserve never overwrites an existing hold (it only
commits outpoints absent from the held map), and ReserveUTXO fails with
AlreadyReserved on a held outpoint rather than overwrite its entry. -/
theorem c1_exclusive_holds (db : List DBRow) (ops : List Op)
    (hwf : dbWellFormed db) :
    (∀ a1 a2 op r1 r2, (run db ops).heldBy a1 op = some r1 →
      (run db ops).heldBy a2 op = some r2 → a1 = a2 ∧ r1 = r2) ∧
    (∀ a op rid, (run db ops).heldBy a op = some rid →
      ∃ res, alookup (run db ops).reservations rid = some res ∧
        res.accountID = a ∧ op ∈ outpoints res.utxos) ∧
    (∀ source exp a op, ((run db ops).heldBy a op).isSome = true →
      ((run db ops).Reserve db source exp).2.heldBy a op =
        (run db ops).heldBy a op) ∧
    (∀ h p tok exp u, findSpecificUTXO db h p = some u →
      ((run db ops).heldBy u.accountID u.outpoint).isSome = true →
      ((run db ops).ReserveUTXO db h p tok exp).1 =
        ReserveResult.err RErr.reserved) := by
  have hinv := inv_run db ops
  refine ⟨?_, ?_, ?_, ?_⟩
  · intro a1 a2 op r1 r2 hh1 hh2
    obtain ⟨ra, hra, hma⟩ := inv_heldBy_row hinv hh1
    obtain ⟨rb, hrb, hmb⟩ := inv_heldBy_row hinv hh2
    have heq : ra = rb :=
      hwf ra hra rb hrb (hma.1.trans hmb.1.symm) (hma.2.1.trans hmb.2.1.symm)
    have ha12 : a1 = a2 := by
      rw [← hma.2.2, ← hmb.2.2, heq]
    refine ⟨ha12, ?_⟩
    rw [ha12] at hh1
    rw [hh1] at hh2
    exact Option.some.inj hh2
  · intro a op rid hh
    exact inv_heldBy_live hinv hh
  · intro source exp a op hh
    exact Reserve_no_overwrite hh
  · intro h p tok exp u hf hh
    exact mreserveUTXO_held_err hf hh

theorem c1_exclusive_holds_witness :
    dbWellFormed sampleDB ∧
    (∀ a1 a2 op r1 r2,
      (run sampleDB [Op.reserveOp (sampleSource 25) 9]).heldBy a1 op = some r1 →
      (run sampleDB [Op.reserveOp (sampleSource 25) 9]).heldBy a2 op = some r2 →
      a1 = a2 ∧ r1 = r2) :=
  ⟨by decide,
   (c1_exclusive_holds sampleDB [Op.reserveOp (sampleSource 25) 9] (by decide)).1⟩

end Utxodb
